import Mathlib

/-!
Verification of `scripts/lib/alchemy_client.py` and `scripts/lib/chain_scanners.py`
of the crypto-wallet-tracking repository, as a shallow embedding in Lean.

Python strings are modelled as `String`/`List Char`, Python `int` as `Nat`
(all quantities in the code are non-negative), absent JSON fields and
Python `None` as `Option`, and raised exceptions as `Except`/explicit error
values.  Side effects that carry no data (sleeping between retries, the
stderr diagnostic line) are not modelled; everything that flows into return
values or raised errors is.
-/

set_option autoImplicit false

deriving instance DecidableEq for Except

namespace WalletScan

/-! ## Python string primitives -/

/-- Python's substring test `key in s`, on character lists: true iff `key`
occurs contiguously in `s` (the empty key occurs in every string). -/
def containsSub (key : List Char) : List Char → Bool
  | [] => key.isEmpty
  | c :: rest => key.isPrefixOf (c :: rest) || containsSub key rest

/-- Fuel-bounded body of Python `subject.replace(key, rep)`: scan left to
right, replacing each (non-overlapping) occurrence of `key` by `rep`; an
empty `key` matches before every character and at the end, as in Python.
`fuel` larger than the subject's length makes the bound irrelevant. -/
def replaceAux (key rep : List Char) : Nat → List Char → List Char
  | 0, s => s
  | _ + 1, [] => if key.isEmpty then rep else []
  | fuel + 1, c :: rest =>
    if key ≠ [] ∧ key.isPrefixOf (c :: rest) then
      rep ++ replaceAux key rep fuel (List.drop key.length (c :: rest))
    else if key.isEmpty then
      rep ++ c :: replaceAux key rep fuel rest
    else
      c :: replaceAux key rep fuel rest

/-- Python `subject.replace(key, rep)` (replaces every occurrence). -/
def pyReplace (subject key rep : String) : String :=
  ⟨replaceAux key.toList rep.toList (subject.toList.length + 1) subject.toList⟩

/-! ## Error taxonomy (alchemy_client.py lines 87-98) -/

/-- The exceptions raised by `AlchemyClient`.  `rateLimitError` models
`AlchemyRateLimitError`, which subclasses `AlchemyAPIError`; both carry the
message passed to `__init__` (which is exactly `str(e)`) and an optional
`status_code`. -/
inductive AlchemyError where
  | apiError (message : String) (statusCode : Option Int)
  | rateLimitError (message : String) (statusCode : Option Int)
deriving Repr, DecidableEq

/-- `str(e)` of a raised client error: the message passed to the constructor. -/
def AlchemyError.message : AlchemyError → String
  | .apiError m _ => m
  | .rateLimitError m _ => m

/-- The `status_code` attribute of a raised client error. -/
def AlchemyError.statusCode : AlchemyError → Option Int
  | .apiError _ c => c
  | .rateLimitError _ c => c

/-- `AlchemyClient._sanitize_error_message` (lines 140-142):
`message.replace(self.api_key, "[REDACTED]")`. -/
def sanitizeErrorMessage (apiKey message : String) : String :=
  pyReplace message apiKey "[REDACTED]"

/-! ## The retry loop `AlchemyClient._execute_with_retry` (lines 163-223) -/

/-- What one invocation of `request_func()` does: either the transport
returns a response with a status code, or it raises a
`requests.RequestException` whose `str` is `message`. -/
inductive ReqOutcome where
  | resp (status : Nat)
  | exn (message : String)
deriving Repr, DecidableEq

/-- The client state `_execute_with_retry` reads: the credential (used to
sanitize transport-error messages), `max_retries`, and the text
`str(requests.HTTPError)` that `response.raise_for_status()` produces for a
given 4xx status (transport-library text, kept abstract).  The delay, the
backoff multiplier and the jitter only affect how long the loop sleeps,
never which value it returns, so they are not modelled. -/
structure RetryEnv where
  apiKey : String
  maxRetries : Nat
  httpErrorMessage : Nat → String

/-- `for attempt in range(max_retries + 1)` of `_execute_with_retry`,
with the remaining iteration count `fuel = max_retries + 1 - attempt` made
structural; the test `attempt < max_retries` is `fuel - 1 ≥ 1`.  Returns the
result (`.ok status` for a returned response) paired with the number of
attempts performed.  Branches, in the source's order:
429 → retry or `AlchemyRateLimitError`; 401 → `AlchemyAPIError` at once;
≥ 500 → retry or `AlchemyAPIError` with the status; otherwise
`response.raise_for_status()` raises `requests.HTTPError` for 4xx statuses,
which — being a `requests.RequestException` — lands in the same handler as
transport failures: retry, then `AlchemyAPIError` with the sanitized
exception text and no status code. -/
def executeRetryLoop (env : RetryEnv) (outcomes : Nat → ReqOutcome) :
    Nat → Nat → Except AlchemyError Nat × Nat
  | _, 0 => (.error (.apiError "Max retries exceeded" none), 0)
  | attempt, attemptsLeft + 1 =>
    let retry := fun (_ : Unit) =>
      let p := executeRetryLoop env outcomes (attempt + 1) attemptsLeft
      (p.1, p.2 + 1)
    let transportFail := fun (msg : String) =>
      match attemptsLeft with
      | 0 =>
        ((.error (.apiError ("Request failed: " ++ sanitizeErrorMessage env.apiKey msg) none) :
          Except AlchemyError Nat), 1)
      | _ + 1 => retry ()
    match outcomes attempt with
    | .resp status =>
      if status = 429 then
        match attemptsLeft with
        | 0 => (.error (.rateLimitError "Rate limit exceeded and max retries reached" (some 429)), 1)
        | _ + 1 => retry ()
      else if status = 401 then
        (.error (.apiError "Invalid API key" (some 401)), 1)
      else if 500 ≤ status then
        match attemptsLeft with
        | 0 => (.error (.apiError ("Server error: " ++ toString status) (some (status : Int))), 1)
        | _ + 1 => retry ()
      else if 400 ≤ status then
        transportFail (env.httpErrorMessage status)
      else
        (.ok status, 1)
    | .exn msg => transportFail msg

/-- `AlchemyClient._execute_with_retry(request_func)`, where attempt `i` of
`request_func` behaves as `outcomes i`.  Returns the result together with
the number of attempts made. -/
def executeWithRetry (env : RetryEnv) (outcomes : Nat → ReqOutcome) :
    Except AlchemyError Nat × Nat :=
  executeRetryLoop env outcomes 0 (env.maxRetries + 1)

/-- A response-status script: attempt `i` returns status `statuses[i]`,
and 200 beyond the end of the list. -/
def respSeq (statuses : List Nat) : Nat → ReqOutcome :=
  fun i => .resp (statuses.getD i 200)

/-! ## Decimal rendering of natural numbers (Python `str(int)`) -/

/-- The character for a decimal digit `< 10`. -/
def digitChar : Nat → Char
  | 0 => '0' | 1 => '1' | 2 => '2' | 3 => '3' | 4 => '4'
  | 5 => '5' | 6 => '6' | 7 => '7' | 8 => '8' | 9 => '9'
  | _ => '*'

/-- Fuel-bounded digit extraction, most significant digit first once
reversed into `acc`; `fuel > n` guarantees completion. -/
def natToDigitsAux : Nat → Nat → List Char → List Char
  | 0, _, acc => acc
  | fuel + 1, n, acc =>
    if n < 10 then digitChar n :: acc
    else natToDigitsAux fuel (n / 10) (digitChar (n % 10) :: acc)

/-- The decimal digit characters of `n`, most significant first
(`['0']` for zero) — the characters of Python `str(n)`. -/
def natToStrList (n : Nat) : List Char :=
  natToDigitsAux (n + 1) n []

/-- Python `str(n)` for a non-negative integer. -/
def natToStr (n : Nat) : String :=
  ⟨natToStrList n⟩

/-- `len(str(n))`: the number of decimal digits of `n` (1 for zero). -/
def numDigits (n : Nat) : Nat :=
  (natToStrList n).length

/-! ## Python `decimal.Decimal` division by a power of ten

`format_quantity` computes `Decimal(raw_balance) / Decimal(10**decimals)`
under the default context: precision 28 significant digits, rounding
ROUND_HALF_EVEN (CPython `_pydecimal.Decimal.__truediv__` followed by
`Decimal._fix`; the default context's exponent limits are never reached by
these values, so `_fix` only performs the precision rounding).  A positive
decimal value is the pair `(coefficient, exponent)` with value
`coefficient * 10 ^ exponent`. -/

/-- `while exp < ideal_exp and coeff % 10 == 0: coeff //= 10; exp += 1`
with `ideal_exp = 0`, fuel-bounded; fuel `(-exp).toNat` suffices because
each step raises `exp` by one. -/
def stripZerosAux : Nat → Nat × Int → Nat × Int
  | 0, p => p
  | fuel + 1, (coeff, exp) =>
    if exp < 0 ∧ coeff % 10 = 0 then stripZerosAux fuel (coeff / 10, exp + 1)
    else (coeff, exp)

/-- Move an exact quotient as close to the ideal exponent 0 as possible. -/
def stripZeros (coeff : Nat) (exp : Int) : Nat × Int :=
  stripZerosAux (-exp).toNat (coeff, exp)

/-- `Decimal.__truediv__` for `Decimal(r) / Decimal(10 ^ d)` with `r > 0`:
both operands have exponent 0, so `shift = len(str(10^d)) - len(str(r)) +
prec + 1` and the ideal exponent is 0.  Inexact quotients get the `+1`
nudge on a multiple of 5 so that the later half-even rounding is exact;
exact quotients shed trailing zeros down to the ideal exponent.  Returns
the coefficient/exponent pair before `_fix`. -/
def decimalDivRaw (r d : Nat) : Nat × Int :=
  let shift : Int := (numDigits (10 ^ d) : Int) - (numDigits r : Int) + 28 + 1
  let exp : Int := -shift
  let p : Nat × Nat :=
    if 0 ≤ shift then ((r * 10 ^ shift.toNat) / 10 ^ d, (r * 10 ^ shift.toNat) % 10 ^ d)
    else (r / (10 ^ d * 10 ^ (-shift).toNat), r % (10 ^ d * 10 ^ (-shift).toNat))
  if p.2 ≠ 0 then
    (if p.1 % 5 = 0 then p.1 + 1 else p.1, exp)
  else
    stripZeros p.1 exp

/-- `Etiny` of the default context: `Emin - prec + 1 = -999999 - 27`.
No result exponent may fall below it. -/
def DEC_ETINY : Int := -1000026

/-- `Decimal._fix` under the default context (prec 28, Emin -999999,
ROUND_HALF_EVEN, clamp 0) for the positive coefficients the division
produces.  The smallest exponent allowed for this value is
`exp_min = len(coeff) + exp - prec`, floored at `Etiny` (the subnormal
case).  If `exp` is below that floor, the trailing `exp_min - exp` digits
are dropped with half-even rounding — in the deep-subnormal case
(`len(coeff) + exp < exp_min`, where `_fix` substitutes coefficient `'1'`
at `exp_min - 1`) the kept part is `0` and the dropped part is below the
halfway mark, which the `coeff / 10^k` / `coeff % 10^k` formulation below
reproduces verbatim — and a carry past 28 digits sheds its trailing zero
into the exponent.  The overflow test (`exp_min > Etop`) cannot fire for
these quotients, whose adjusted exponent stays far below `Emax`; the
`Underflow`/`Subnormal`/`Rounded`/`Clamped` signals are untrapped flags
and carry no data. -/
def fixPrec (coeff : Nat) (exp : Int) : Nat × Int :=
  let expMin : Int := max ((numDigits coeff : Int) + exp - 28) DEC_ETINY
  if exp < expMin then
    let k := (expMin - exp).toNat
    let upper := coeff / 10 ^ k
    let lower := coeff % 10 ^ k
    let half := 5 * 10 ^ (k - 1)
    let rounded := if half < lower ∨ (lower = half ∧ upper % 2 = 1) then upper + 1 else upper
    if numDigits rounded ≤ 28 then (rounded, exp + k) else (rounded / 10, exp + k + 1)
  else (coeff, exp)

/-- `n` zero characters. -/
def zerosList (n : Nat) : List Char :=
  List.replicate n '0'

/-- `format(Decimal, "f")` for a positive value `(coeff, exp)`: fixed-point
notation, digits followed by `exp` zeros when `exp ≥ 0` (no decimal point),
otherwise exactly `-exp` fractional digits, zero-padded on the left. -/
def formatFixedList (coeff : Nat) (exp : Int) : List Char :=
  if 0 ≤ exp then natToStrList coeff ++ zerosList exp.toNat
  else
    let k := (-exp).toNat
    let fracPart := coeff % 10 ^ k
    natToStrList (coeff / 10 ^ k) ++
      '.' :: (zerosList (k - numDigits fracPart) ++ natToStrList fracPart)

/-- Python `s.rstrip(c)` for a single strip character. -/
def pyRstripChar (c : Char) (s : List Char) : List Char :=
  (s.reverse.dropWhile (fun x => x == c)).reverse

/-- Lines 49-50 of chain_scanners.py:
`if "." in formatted: formatted = formatted.rstrip("0").rstrip(".")`. -/
def stripFormatted (s : List Char) : List Char :=
  if s.contains '.' then pyRstripChar '.' (pyRstripChar '0' s) else s

/-- `format_quantity(raw_balance, decimals)` (chain_scanners.py lines
20-52): `"0"` for a zero balance, the plain integer string for zero
decimals, otherwise the Decimal quotient rendered fixed-point with
trailing zeros (and a lone trailing point) stripped. -/
def format_quantity (raw_balance : Nat) (decimals : Nat) : String :=
  if raw_balance = 0 then "0"
  else if decimals = 0 then natToStr raw_balance
  else
    let q := decimalDivRaw raw_balance decimals
    let f := fixPrec q.1 q.2
    ⟨stripFormatted (formatFixedList f.1 f.2)⟩

/-! ## The exact decimal rendering of `r / 10 ^ d` (specification side)

The spec (§4.3) asks for the exact rational value rendered in fixed-point
notation with trailing fractional zeros and a lone trailing point
stripped.  Reducing the fraction by the largest power of ten not exceeding
`10 ^ d` that divides `r` yields `m / 10 ^ e` whose last fractional digit
is non-zero whenever `e > 0`, so rendering that reduced form fixed-point
IS the stripped rendering. -/

/-- Fuel-bounded 10-adic valuation; fuel `> n` suffices. -/
def tenValAux : Nat → Nat → Nat
  | 0, _ => 0
  | fuel + 1, n => if n ≠ 0 ∧ n % 10 = 0 then tenValAux fuel (n / 10) + 1 else 0

/-- The number of trailing zero digits of `n` (0 for `n = 0`). -/
def tenVal (n : Nat) : Nat :=
  tenValAux (n + 1) n

/-- The exact decimal string of the rational `r / 10 ^ d`, trailing
fractional zeros stripped, no trailing point, `"0"` for zero — what the
spec's "exact rational value, rendered, then stripped" denotes. -/
def exactDecimalString (r d : Nat) : String :=
  if r = 0 then "0"
  else
    let v := min (tenVal r) d
    ⟨formatFixedList (r / 10 ^ v) (-((d - v : Nat) : Int))⟩

/-! ## Python `int(s, 16)` and `or`-defaulting -/

/-- The value of one hexadecimal digit character, if it is one. -/
def hexDigitVal (c : Char) : Option Nat :=
  if '0' ≤ c ∧ c ≤ '9' then some (c.toNat - 48)
  else if 'a' ≤ c ∧ c ≤ 'f' then some (c.toNat - 87)
  else if 'A' ≤ c ∧ c ≤ 'F' then some (c.toNat - 55)
  else none

/-- Accumulate hexadecimal digits; `none` on a non-digit. -/
def hexAccum : List Char → Nat → Option Nat
  | [], acc => some acc
  | c :: rest, acc =>
    match hexDigitVal c with
    | some v => hexAccum rest (acc * 16 + v)
    | none => none

/-- Python `int(s, 16)` for the strings the client handles: an optional
`0x`/`0X` marker followed by at least one hex digit; `none` models the
`ValueError` Python raises otherwise. -/
def pythonIntHex (s : String) : Option Nat :=
  let cs := s.toList
  let body := if cs.take 2 = ['0', 'x'] ∨ cs.take 2 = ['0', 'X'] then cs.drop 2 else cs
  if body.isEmpty then none else hexAccum body 0

/-- Python `x or default` on an optional integer: `None` *and zero* are
falsy, so an explicit 0 also yields the default. -/
def pyOrNat (x : Option Nat) (dflt : Nat) : Nat :=
  match x with
  | none => dflt
  | some v => if v = 0 then dflt else v

/-- Python `x or default` on an optional string: `None` and the empty
string are falsy. -/
def pyOrStr (x : Option String) (dflt : String) : String :=
  match x with
  | none => dflt
  | some v => if v = "" then dflt else v

/-! ## Client data records (alchemy_client.py lines 44-84) -/

/-- `TokenBalance`: an ERC-20 balance, the balance a hex string. -/
structure TokenBalance where
  contract_address : String
  balance : String
deriving Repr, DecidableEq

/-- `TokenMetadata`: all fields optional. -/
structure TokenMetadata where
  name : Option String
  symbol : Option String
  decimals : Option Nat
  logo : Option String
deriving Repr, DecidableEq

/-- `NFT`: one owned EVM NFT record. -/
structure NFT where
  contract_address : String
  token_id : String
  token_type : String
  name : Option String
  collection_name : Option String
  balance : String
  is_spam : Bool
deriving Repr, DecidableEq

/-- `SolanaAsset`: one DAS-API asset record. -/
structure SolanaAsset where
  asset_id : String
  interface : String
  name : Option String
  symbol : Option String
  balance : Option Nat
  decimals : Option Nat
deriving Repr, DecidableEq

/-- `NATIVE_TOKENS[network]` (lines 28-34). -/
structure NativeTokenInfo where
  symbol : String
  name : String
  decimals : Nat
deriving Repr, DecidableEq

/-- The immutable `NATIVE_TOKENS` table; `none` models the `KeyError` /
`ValueError` for an unknown network. -/
def NATIVE_TOKENS : String → Option NativeTokenInfo
  | "ethereum" => some ⟨"ETH", "Ethereum", 18⟩
  | "polygon" => some ⟨"MATIC", "Polygon", 18⟩
  | "base" => some ⟨"ETH", "Ethereum", 18⟩
  | "bnb" => some ⟨"BNB", "BNB", 18⟩
  | "solana" => some ⟨"SOL", "Solana", 9⟩
  | _ => none

/-! ## JSON-RPC response handling (`AlchemyClient._request`, lines 256-266) -/

/-- The `error` object of a JSON-RPC response body: `code` and `message`
as optionally present fields, and `str` the Python rendering of the whole
object, used as the message fallback (`error.get('message', str(error))`). -/
structure RpcError where
  code : Option Int := none
  message : Option String := none
  str : String := ""
deriving Repr, DecidableEq

/-- Lines 257-266 of `_request`, applied to a successfully returned
response body: if an `error` field is present, raise `AlchemyAPIError`
with message `"API error: " ++ error.get('message', str(error))` and the
upstream `code` as status — note: NOT passed through
`_sanitize_error_message`; otherwise return `data.get("result", default)`. -/
def handleRpcData {α : Type} (dflt : α) (result : Option α) (error : Option RpcError) :
    Except AlchemyError α :=
  match error with
  | some e => .error (.apiError ("API error: " ++ (e.message.getD e.str)) e.code)
  | none => .ok (result.getD dflt)

/-! ## `AlchemyClient.get_token_balances` (lines 308-350) -/

/-- One raw entry of a `tokenBalances` page, fields optionally present. -/
structure RawTokenEntry where
  contractAddress : Option String := none
  tokenBalance : Option String := none
deriving Repr, DecidableEq

/-- One `alchemy_getTokenBalances` response `result`: the entry list
(defaulting to empty when absent) and the optional `pageKey` cursor. -/
structure TokenBalancesPage where
  tokenBalances : List RawTokenEntry := []
  pageKey : Option String := none
deriving Repr, DecidableEq

/-- The per-page filter (lines 335-344): keep an entry iff its
`tokenBalance` (defaulting to `"0x0"`) is non-empty, not `"0x0"`, and
parses to a positive integer; `int(balance, 16)` on an unparsable string
raises `ValueError` (the `.error` case), which the client does not catch. -/
def filterTokenEntries : List RawTokenEntry → Except String (List TokenBalance)
  | [] => .ok []
  | e :: rest =>
    let balance := e.tokenBalance.getD "0x0"
    if balance = "" ∨ balance = "0x0" then filterTokenEntries rest
    else
      match pythonIntHex balance with
      | none => .error "ValueError: invalid hex balance"
      | some v =>
        if 0 < v then
          (filterTokenEntries rest).map
            (fun acc => ⟨e.contractAddress.getD "", balance⟩ :: acc)
        else filterTokenEntries rest

/-- The pagination loop of `get_token_balances`: call `i` of the upstream
returns `pages[i]` (an empty final page beyond the list); accumulate the
filtered entries of each page and continue while the response carries a
non-empty `pageKey` (Python's `if not page_key: break`).  Returns the
accumulated balances and the number of upstream calls made. -/
def getTokenBalancesLoop : List TokenBalancesPage → Except String (List TokenBalance × Nat)
  | [] => .ok ([], 1)
  | p :: rest =>
    match filterTokenEntries p.tokenBalances with
    | .error e => .error e
    | .ok filtered =>
      match p.pageKey with
      | none => .ok (filtered, 1)
      | some k =>
        if k = "" then .ok (filtered, 1)
        else
          match getTokenBalancesLoop rest with
          | .error e => .error e
          | .ok (more, n) => .ok (filtered ++ more, n + 1)

/-! ## The unified output model (models.py) -/

/-- `Asset`: the unified record written to the CSV. -/
structure Asset where
  chain : String
  asset_name : String
  symbol : String
  asset_address : String
  quantity : String
  token_type : String
  token_id : Option String := none
  collection_name : Option String := none
  is_spam : Bool := false
deriving Repr, DecidableEq

/-- `ScanResult`: one chain's scan output. -/
structure ScanResult where
  chain : String
  assets : List Asset
  spam_assets : List Asset
  native_count : Nat := 0
  token_count : Nat := 0
  nft_count : Nat := 0
  erc721_count : Nat := 0
  erc1155_count : Nat := 0
  spam_count : Nat := 0
  skipped_tokens : Nat := 0
  error : Option String := none
deriving Repr, DecidableEq

/-- The `ScanResult` built by the `except AlchemyAPIError` handlers
(chain_scanners.py lines 220-226 and 327-333): empty lists, all counts at
their zero defaults, `error = str(e)`. -/
def errorScanResult (chain msg : String) : ScanResult :=
  { chain := chain, assets := [], spam_assets := [], error := some msg }

/-! ## `EVMChainScanner.scan` (chain_scanners.py lines 118-226)

The scan is a pure function of what the four client operations return for
this wallet on this chain.  Client failures are `AlchemyError`s (the only
exception type the scan's handlers catch); the outer result is `Except
String ScanResult`, whose `.error` case is an exception that escapes the
scanner (`ValueError` from `int(tb.balance, 16)` on a malformed hex
string, or `KeyError` from the `NATIVE_TOKENS[self.chain]` lookup). -/

/-- What the client returns during one EVM scan: the native balance, the
token-balance list, per-contract metadata, and the NFT list. -/
structure EVMFetchData where
  nativeBalance : Except AlchemyError Nat
  tokenBalances : Except AlchemyError (List TokenBalance)
  tokenMetadata : String → Except AlchemyError TokenMetadata
  nfts : Except AlchemyError (List NFT)

/-- `BaseChainScanner._create_native_asset` (lines 87-108). -/
def createNativeAsset (chain : String) (balance decimals : Nat) (symbol name : String) : Asset :=
  { chain := chain, asset_name := name, symbol := symbol, asset_address := "NATIVE",
    quantity := format_quantity balance decimals, token_type := "NATIVE", is_spam := false }

/-- The ERC-20 asset built for one token balance (lines 155-167). -/
def evmTokenToAsset (chain : String) (md : TokenMetadata) (tb : TokenBalance)
    (balanceInt : Nat) : Asset :=
  { chain := chain, asset_name := pyOrStr md.name "", symbol := pyOrStr md.symbol "",
    asset_address := tb.contract_address,
    quantity := format_quantity balanceInt (pyOrNat md.decimals 18),
    token_type := "ERC20", is_spam := false }

/-- The accumulated outcome of the ERC-20 loop. -/
structure TokenFold where
  assets : List Asset
  token_count : Nat
  skipped : Nat
deriving Repr, DecidableEq

/-- The ERC-20 loop (lines 153-173): fetch each token's metadata; on an
`AlchemyAPIError` skip it and count it (the only caught exception);
otherwise decode the hex balance — an undecodable balance raises
`ValueError` out of the whole scan — apply the `or 18` decimals default
and build the asset.  (The `skipped_tokens > 0` stderr line, lines
175-180, carries no data and is not modelled.) -/
def processTokens (chain : String) (fetchMeta : String → Except AlchemyError TokenMetadata) :
    List TokenBalance → Except String TokenFold
  | [] => .ok ⟨[], 0, 0⟩
  | tb :: rest =>
    match fetchMeta tb.contract_address with
    | .error _ =>
      (processTokens chain fetchMeta rest).map
        (fun f => ⟨f.assets, f.token_count, f.skipped + 1⟩)
    | .ok md =>
      match pythonIntHex tb.balance with
      | none => .error "ValueError: invalid hex balance"
      | some bi =>
        (processTokens chain fetchMeta rest).map
          (fun f => ⟨evmTokenToAsset chain md tb bi :: f.assets, f.token_count + 1, f.skipped⟩)

/-- The asset built for one NFT record (lines 185-195). -/
def evmNftToAsset (chain : String) (n : NFT) : Asset :=
  { chain := chain, asset_name := pyOrStr n.name "", symbol := "",
    asset_address := n.contract_address, quantity := n.balance,
    token_type := n.token_type, token_id := some n.token_id,
    collection_name := n.collection_name, is_spam := n.is_spam }

/-- The accumulated outcome of the NFT loop. -/
structure NftFold where
  assets : List Asset
  spam_assets : List Asset
  nft_count : Nat
  erc721_count : Nat
  erc1155_count : Nat
deriving Repr, DecidableEq

/-- The NFT loop (lines 184-205): spam-flagged records go only to the spam
list and touch no counter; clean records go to the main list and bump
`nft_count` plus the matching ERC721 / ERC1155 sub-counter. -/
def processNfts (chain : String) : List NFT → NftFold
  | [] => ⟨[], [], 0, 0, 0⟩
  | n :: rest =>
    let a := evmNftToAsset chain n
    let f := processNfts chain rest
    if n.is_spam then ⟨f.assets, a :: f.spam_assets, f.nft_count, f.erc721_count, f.erc1155_count⟩
    else
      ⟨a :: f.assets, f.spam_assets, f.nft_count + 1,
        (if n.token_type = "ERC721" then f.erc721_count + 1 else f.erc721_count),
        (if n.token_type = "ERC1155" then f.erc1155_count + 1 else f.erc1155_count)⟩

/-- `EVMChainScanner.scan`: native balance (an asset only when positive),
then the ERC-20 loop, then the NFT loop; any `AlchemyAPIError` from the
three fetches aborts into `errorScanResult` (the `except` handler at lines
220-226); the final `ScanResult` (lines 207-218) concatenates assets in
fetch order and sets `spam_count = len(spam_assets)`. -/
def evmScan (chain : String) (d : EVMFetchData) : Except String ScanResult :=
  match d.nativeBalance with
  | .error e => .ok (errorScanResult chain e.message)
  | .ok nb =>
    let nativeStep : Except String (List Asset × Nat) :=
      if 0 < nb then
        match NATIVE_TOKENS chain with
        | none => .error "KeyError: unknown chain"
        | some info => .ok ([createNativeAsset chain nb info.decimals info.symbol info.name], 1)
      else .ok ([], 0)
    match nativeStep with
    | .error e => .error e
    | .ok (nativeAssets, nativeCount) =>
      match d.tokenBalances with
      | .error e => .ok (errorScanResult chain e.message)
      | .ok tbs =>
        match processTokens chain d.tokenMetadata tbs with
        | .error e => .error e
        | .ok tf =>
          match d.nfts with
          | .error e => .ok (errorScanResult chain e.message)
          | .ok nfts =>
            let nf := processNfts chain nfts
            .ok { chain := chain,
                  assets := nativeAssets ++ tf.assets ++ nf.assets,
                  spam_assets := nf.spam_assets,
                  native_count := nativeCount,
                  token_count := tf.token_count,
                  nft_count := nf.nft_count,
                  erc721_count := nf.erc721_count,
                  erc1155_count := nf.erc1155_count,
                  spam_count := nf.spam_assets.length,
                  skipped_tokens := tf.skipped,
                  error := none }

/-! ## `SolanaChainScanner.scan` (chain_scanners.py lines 229-333) -/

/-- The wrapped-SOL mint address (line 17). -/
def WRAPPED_SOL_MINT : String := "So11111111111111111111111111111111111111112"

/-- `SolanaChainScanner.INTERFACE_TO_TOKEN_TYPE` (lines 238-245). -/
def INTERFACE_TO_TOKEN_TYPE : String → Option String
  | "FungibleToken" => some "SPL"
  | "FungibleAsset" => some "SPL"
  | "V1_NFT" => some "NFT"
  | "V2_NFT" => some "NFT"
  | "ProgrammableNFT" => some "pNFT"
  | "MplCoreAsset" => some "MPL"
  | _ => none

/-- `is_fungible` (line 270). -/
def solanaIsFungible (sa : SolanaAsset) : Bool :=
  sa.interface = "FungibleToken" ∨ sa.interface = "FungibleAsset"

/-- The native-SOL special case test (line 278), applicable to a fungible
asset with a balance. -/
def solanaIsNativeSol (sa : SolanaAsset) : Bool :=
  sa.symbol = some "SOL" ∧ sa.asset_id = WRAPPED_SOL_MINT

/-- The asset built for one DAS record (loop body, lines 266-316):
fungible with a present balance → formatted quantity, either the NATIVE
special case or an SPL-style token; anything else → an NFT-shaped asset
with quantity `"1"` and the mint address doubling as the token id. -/
def solanaAssetToAsset (chain : String) (sa : SolanaAsset) : Asset :=
  let token_type := (INTERFACE_TO_TOKEN_TYPE sa.interface).getD sa.interface
  let fungibleWithBalance : Option Nat :=
    if solanaIsFungible sa then sa.balance else none
  match fungibleWithBalance with
  | some b =>
    let quantity := format_quantity b (pyOrNat sa.decimals 9)
    if solanaIsNativeSol sa then
      { chain := chain, asset_name := pyOrStr sa.name "Solana", symbol := "SOL",
        asset_address := "NATIVE", quantity := quantity, token_type := "NATIVE",
        is_spam := false }
    else
      { chain := chain, asset_name := pyOrStr sa.name "", symbol := pyOrStr sa.symbol "",
        asset_address := sa.asset_id, quantity := quantity, token_type := token_type,
        is_spam := false }
  | none =>
    { chain := chain, asset_name := pyOrStr sa.name "", symbol := pyOrStr sa.symbol "",
      asset_address := sa.asset_id, quantity := "1", token_type := token_type,
      token_id := some sa.asset_id, collection_name := none, is_spam := false }

/-- The loop accumulator of the Solana scan: the growing asset list and the
`native_count` / `token_count` / `nft_count` variables. -/
structure SolFold where
  assets : List Asset
  native_count : Nat
  token_count : Nat
  nft_count : Nat
deriving Repr, DecidableEq

/-- The Solana scan loop (lines 266-316), mutating the accumulator left to
right exactly as the source does: every record appends one asset; a
fungible-with-balance record either *sets* `native_count` to 1 (the SOL
special case) or increments `token_count`; every other record increments
`nft_count`. -/
def solanaLoop (chain : String) (acc : SolFold) : List SolanaAsset → SolFold
  | [] => acc
  | sa :: rest =>
    let a := solanaAssetToAsset chain sa
    let acc' : SolFold :=
      if solanaIsFungible sa ∧ sa.balance ≠ none then
        if solanaIsNativeSol sa then
          ⟨acc.assets ++ [a], 1, acc.token_count, acc.nft_count⟩
        else
          ⟨acc.assets ++ [a], acc.native_count, acc.token_count + 1, acc.nft_count⟩
      else
        ⟨acc.assets ++ [a], acc.native_count, acc.token_count, acc.nft_count + 1⟩
    solanaLoop chain acc' rest

/-- `SolanaChainScanner.scan`: one paginated asset fetch; an
`AlchemyAPIError` becomes `errorScanResult` (lines 327-333); otherwise the
loop's accumulator fills the result, whose `spam_assets` is always the
empty list (line 321). -/
def solanaScan (chain : String) (d : Except AlchemyError (List SolanaAsset)) : ScanResult :=
  match d with
  | .error e => errorScanResult chain e.message
  | .ok sas =>
    let f := solanaLoop chain ⟨[], 0, 0, 0⟩ sas
    { chain := chain, assets := f.assets, spam_assets := [],
      native_count := f.native_count, token_count := f.token_count,
      nft_count := f.nft_count, error := none }

/-! # Theorems -/

/-! ## The retry loop -/

/-- Each run of the loop performs at most `fuel` attempts. -/
theorem executeRetryLoop_snd_le (env : RetryEnv) (o : Nat → ReqOutcome) :
    ∀ fuel attempt, (executeRetryLoop env o attempt fuel).2 ≤ fuel := by
  intro fuel
  induction fuel with
  | zero => intro a; exact Nat.le_refl 0
  | succ k ih =>
    intro a
    have hretry : (executeRetryLoop env o (a + 1) k).2 + 1 ≤ k + 1 :=
      Nat.succ_le_succ (ih (a + 1))
    simp only [executeRetryLoop]
    cases o a with
    | resp status =>
      dsimp only
      split_ifs with h1 h2 h3 h4
      · cases k with
        | zero => exact Nat.le_refl 1
        | succ m => exact hretry
      · exact Nat.succ_le_succ (Nat.zero_le k)
      · cases k with
        | zero => exact Nat.le_refl 1
        | succ m => exact hretry
      · cases k with
        | zero => exact Nat.le_refl 1
        | succ m => exact hretry
      · exact Nat.succ_le_succ (Nat.zero_le k)
    | exn msg =>
      dsimp only
      cases k with
      | zero => exact Nat.le_refl 1
      | succ m => exact hretry

/-- A response whose status is in 400-499 but is neither 429 nor 401 makes
`raise_for_status` raise `requests.HTTPError`, which the transport handler
catches: the loop retries it and, once attempts run out, raises a
status-code-free `AlchemyAPIError` with the sanitized exception text. -/
theorem executeRetryLoop_client_error (env : RetryEnv) (o : Nat → ReqOutcome) (status : Nat)
    (h400 : 400 ≤ status) (h500 : status < 500) (h429 : status ≠ 429) (h401 : status ≠ 401)
    (ho : ∀ i, o i = .resp status) :
    ∀ fuel attempt, 1 ≤ fuel → executeRetryLoop env o attempt fuel =
      (.error (.apiError
        ("Request failed: " ++ sanitizeErrorMessage env.apiKey (env.httpErrorMessage status))
        none), fuel) := by
  intro fuel
  induction fuel with
  | zero => intro a h; exact absurd h (by decide)
  | succ k ih =>
    intro a _
    simp only [executeRetryLoop, ho a]
    have hn500 : ¬ 500 ≤ status := Nat.not_le.mpr h500
    cases k with
    | zero => simp [h429, h401, hn500, h400]
    | succ m =>
      simp only [h429, h401, hn500, h400, if_true, if_false, if_neg, if_pos]
      have hrec := ih (a + 1) (Nat.succ_le_succ (Nat.zero_le m))
      simp [h429, h401, hn500, h400, hrec]

/-- CLAIM C1.  For every request function and configuration the loop makes
at most `maxRetries + 1` attempts; on the status script `[429, 429, 200]`
(default `max_retries = 5`) exactly 3 attempts happen and the successful
response is returned; on `[429, 429, 429, 429]` with `max_retries = 2`
exactly 3 attempts happen and `AlchemyRateLimitError` with status 429 is
raised. -/
theorem retry_attempt_bound_and_scenarios :
    (∀ (env : RetryEnv) (outcomes : Nat → ReqOutcome),
      (executeWithRetry env outcomes).2 ≤ env.maxRetries + 1)
    ∧ (∀ (key : String) (hm : Nat → String),
      executeWithRetry ⟨key, 5, hm⟩ (respSeq [429, 429, 200]) = (.ok 200, 3))
    ∧ (∀ (key : String) (hm : Nat → String),
      executeWithRetry ⟨key, 2, hm⟩ (respSeq [429, 429, 429, 429]) =
        (.error (.rateLimitError "Rate limit exceeded and max retries reached" (some 429)), 3)) := by
  refine ⟨fun env o => executeRetryLoop_snd_le env o (env.maxRetries + 1) 0, ?_, ?_⟩
  · intro key hm; rfl
  · intro key hm; rfl

/-- CLAIM C5 (counterexample).  On a persistent 404 the loop does NOT fail
with an `APIError` carrying status 404: the error it raises carries no
status code at all (and its message is the sanitized `HTTPError` text). -/
theorem client_error_status_not_carried :
    (executeWithRetry ⟨"secret", 0, fun s => "HTTP " ++ natToStr s⟩ (fun _ => .resp 404)).1 =
      .error (.apiError "Request failed: HTTP 404" none)
    ∧ (AlchemyError.apiError "Request failed: HTTP 404" none).statusCode = none := by
  exact ⟨rfl, rfl⟩

/-- CLAIM C5 (amended).  A non-success status other than 429/401/5xx in
the 400-499 range (e.g. 404) is treated like a transport failure: it is
retried, and after `maxRetries + 1` attempts `executeWithRetry` fails with
a generic `APIError` whose message is the sanitized `raise_for_status`
exception text and which carries NO status code. -/
theorem client_error_retried_then_generic_error (env : RetryEnv) (status : Nat)
    (h400 : 400 ≤ status) (h500 : status < 500) (h429 : status ≠ 429) (h401 : status ≠ 401) :
    executeWithRetry env (fun _ => .resp status) =
      (.error (.apiError
        ("Request failed: " ++ sanitizeErrorMessage env.apiKey (env.httpErrorMessage status))
        none), env.maxRetries + 1) :=
  executeRetryLoop_client_error env _ status h400 h500 h429 h401 (fun _ => rfl)
    (env.maxRetries + 1) 0 (Nat.succ_le_succ (Nat.zero_le _))

/-- Witness for the amended C5 at status 404 with two attempts. -/
theorem client_error_retried_witness :
    executeWithRetry ⟨"secret", 1, fun _ => "boom"⟩ (fun _ => .resp 404) =
      (.error (.apiError "Request failed: boom" none), 2) := by
  have h := client_error_retried_then_generic_error ⟨"secret", 1, fun _ => "boom"⟩ 404
    (by decide) (by decide) (by decide) (by decide)
  exact h.trans rfl

/-! ## Scanner error isolation -/

/-- Every asset the ERC-20 loop builds has `is_spam = false`. -/
theorem processTokens_is_spam_false (chain : String)
    (fm : String → Except AlchemyError TokenMetadata) :
    ∀ tbs tf, processTokens chain fm tbs = .ok tf → ∀ a ∈ tf.assets, a.is_spam = false := by
  intro tbs
  induction tbs with
  | nil =>
    intro tf h a ha
    simp only [processTokens] at h
    cases h
    simp at ha
  | cons tb rest ih =>
    intro tf h a ha
    simp only [processTokens] at h
    cases hm : fm tb.contract_address with
    | error e =>
      rw [hm] at h
      cases hr : processTokens chain fm rest with
      | error e2 => rw [hr] at h; cases h
      | ok f =>
        rw [hr] at h
        cases h
        exact ih f hr a ha
    | ok md =>
      rw [hm] at h
      cases hx : pythonIntHex tb.balance with
      | none => rw [hx] at h; cases h
      | some bi =>
        rw [hx] at h
        cases hr : processTokens chain fm rest with
        | error e2 => rw [hr] at h; cases h
        | ok f =>
          rw [hr] at h
          cases h
          rcases List.mem_cons.mp ha with rfl | hmem
          · rfl
          · exact ih f hr a hmem

/-- CLAIM C2.  A failure of the native-balance fetch, the token-balance
listing, the NFT listing, or the Solana asset fetch (an `AlchemyAPIError`)
makes `scan` return the handler's `ScanResult` — error set, both asset
lists empty, every count zero — instead of propagating; per-token metadata
failures are not of this kind (they only bump `skipped`). -/
theorem scan_error_isolation :
    (∀ chain msg,
        (errorScanResult chain msg).assets = []
      ∧ (errorScanResult chain msg).spam_assets = []
      ∧ (errorScanResult chain msg).native_count = 0
      ∧ (errorScanResult chain msg).token_count = 0
      ∧ (errorScanResult chain msg).nft_count = 0
      ∧ (errorScanResult chain msg).erc721_count = 0
      ∧ (errorScanResult chain msg).erc1155_count = 0
      ∧ (errorScanResult chain msg).spam_count = 0
      ∧ (errorScanResult chain msg).skipped_tokens = 0
      ∧ (errorScanResult chain msg).error = some msg)
    ∧ (∀ (chain : String) (d : EVMFetchData) (e : AlchemyError),
      d.nativeBalance = .error e → evmScan chain d = .ok (errorScanResult chain e.message))
    ∧ (∀ (chain : String) (d : EVMFetchData) (e : AlchemyError) (nb : Nat),
      (NATIVE_TOKENS chain).isSome = true → d.nativeBalance = .ok nb →
      d.tokenBalances = .error e → evmScan chain d = .ok (errorScanResult chain e.message))
    ∧ (∀ (chain : String) (d : EVMFetchData) (e : AlchemyError) (nb : Nat)
        (tbs : List TokenBalance) (tf : TokenFold),
      (NATIVE_TOKENS chain).isSome = true → d.nativeBalance = .ok nb →
      d.tokenBalances = .ok tbs → processTokens chain d.tokenMetadata tbs = .ok tf →
      d.nfts = .error e → evmScan chain d = .ok (errorScanResult chain e.message))
    ∧ (∀ (chain : String) (e : AlchemyError),
      solanaScan chain (.error e) = errorScanResult chain e.message) := by
  refine ⟨fun chain msg => ⟨rfl, rfl, rfl, rfl, rfl, rfl, rfl, rfl, rfl, rfl⟩, ?_, ?_, ?_,
    fun chain e => rfl⟩
  · intro chain d e h
    simp [evmScan, h]
  · intro chain d e nb hsome hnb htb
    obtain ⟨info, hinfo⟩ := Option.isSome_iff_exists.mp hsome
    by_cases h0 : 0 < nb <;> simp [evmScan, hnb, htb, hinfo, h0]
  · intro chain d e nb tbs tf hsome hnb htb hpt hnfts
    obtain ⟨info, hinfo⟩ := Option.isSome_iff_exists.mp hsome
    by_cases h0 : 0 < nb <;> simp [evmScan, hnb, htb, hinfo, h0, hpt, hnfts]

/-- Witness for C2: a rate-limit failure of the native-balance fetch. -/
theorem scan_error_isolation_witness :
    evmScan "ethereum"
        ⟨.error (.rateLimitError "Rate limit exceeded and max retries reached" (some 429)),
         .ok [], fun _ => .ok ⟨none, none, none, none⟩, .ok []⟩ =
      .ok (errorScanResult "ethereum" "Rate limit exceeded and max retries reached") :=
  scan_error_isolation.2.1 "ethereum" _
    (.rateLimitError "Rate limit exceeded and max retries reached" (some 429)) rfl

/-! ## NFT spam partition -/

/-- The NFT loop, described by filters over the input list. -/
theorem processNfts_spec (chain : String) : ∀ nfts : List NFT,
    processNfts chain nfts =
      ⟨(nfts.filter (fun n => !n.is_spam)).map (evmNftToAsset chain),
       (nfts.filter (fun n => n.is_spam)).map (evmNftToAsset chain),
       (nfts.filter (fun n => !n.is_spam)).length,
       (nfts.filter (fun n => !n.is_spam && n.token_type == "ERC721")).length,
       (nfts.filter (fun n => !n.is_spam && n.token_type == "ERC1155")).length⟩ := by
  intro nfts
  induction nfts with
  | nil => rfl
  | cons n rest ih =>
    simp only [processNfts, ih]
    by_cases hs : n.is_spam <;>
      by_cases h721 : n.token_type = "ERC721" <;>
      by_cases h1155 : n.token_type = "ERC1155" <;>
      simp [List.filter_cons, hs, h721, h1155]

/-- Every `ScanResult` a successful `evmScan` returns keeps
`spam_count = len(spam_assets)` and holds only spam-flagged assets in the
spam list and only clean ones in the main list. -/
theorem evmScan_ok_flags (chain : String) (d : EVMFetchData) (res : ScanResult)
    (h : evmScan chain d = .ok res) :
    res.spam_count = res.spam_assets.length
    ∧ (∀ a ∈ res.assets, a.is_spam = false)
    ∧ (∀ a ∈ res.spam_assets, a.is_spam = true) := by
  have herr : ∀ msg : String,
      (errorScanResult chain msg).spam_count = (errorScanResult chain msg).spam_assets.length
      ∧ (∀ a ∈ (errorScanResult chain msg).assets, a.is_spam = false)
      ∧ (∀ a ∈ (errorScanResult chain msg).spam_assets, a.is_spam = true) :=
    fun msg => ⟨rfl, by simp [errorScanResult], by simp [errorScanResult]⟩
  unfold evmScan at h
  split at h
  next e heq => cases h; exact herr e.message
  next nb heq =>
    dsimp only at h
    have hmain : ∀ (nativeAssets : List Asset) (nativeCount : Nat),
        (∀ a ∈ nativeAssets, a.is_spam = false) →
        (match d.tokenBalances with
          | .error e => (.ok (errorScanResult chain e.message) : Except String ScanResult)
          | .ok tbs =>
            match processTokens chain d.tokenMetadata tbs with
            | .error e => .error e
            | .ok tf =>
              match d.nfts with
              | .error e => .ok (errorScanResult chain e.message)
              | .ok nfts =>
                let nf := processNfts chain nfts
                .ok { chain := chain,
                      assets := nativeAssets ++ tf.assets ++ nf.assets,
                      spam_assets := nf.spam_assets,
                      native_count := nativeCount,
                      token_count := tf.token_count,
                      nft_count := nf.nft_count,
                      erc721_count := nf.erc721_count,
                      erc1155_count := nf.erc1155_count,
                      spam_count := nf.spam_assets.length,
                      skipped_tokens := tf.skipped,
                      error := none }) = .ok res →
        res.spam_count = res.spam_assets.length
        ∧ (∀ a ∈ res.assets, a.is_spam = false)
        ∧ (∀ a ∈ res.spam_assets, a.is_spam = true) := by
      intro nativeAssets nativeCount hna hm
      split at hm
      next e heq2 => cases hm; exact herr e.message
      next tbs heq2 =>
        split at hm
        next e heq3 => cases hm
        next tf heq3 =>
          split at hm
          next e heq4 => cases hm; exact herr e.message
          next nfts heq4 =>
            cases hm
            refine ⟨rfl, ?_, ?_⟩
            · intro a ha
              simp only [List.mem_append] at ha
              rcases ha with (ha | ha) | ha
              · exact hna a ha
              · exact processTokens_is_spam_false chain d.tokenMetadata tbs tf heq3 a ha
              · rw [processNfts_spec] at ha
                simp only [List.mem_map] at ha
                obtain ⟨n, hn, rfl⟩ := ha
                have hflag := (List.mem_filter.mp hn).2
                simp only [Bool.not_eq_true'] at hflag
                exact hflag
            · intro a ha
              rw [processNfts_spec] at ha
              simp only [List.mem_map] at ha
              obtain ⟨n, hn, rfl⟩ := ha
              exact (List.mem_filter.mp hn).2
    by_cases h0 : 0 < nb
    · cases hnt : NATIVE_TOKENS chain with
      | none => rw [if_pos h0, hnt] at h; dsimp only at h; cases h
      | some info =>
        rw [if_pos h0, hnt] at h
        dsimp only at h
        refine hmain _ 1 ?_ h
        intro a ha
        rcases List.mem_singleton.mp ha with rfl
        rfl
    · rw [if_neg h0] at h
      dsimp only at h
      exact hmain [] 0 (by simp) h

/-- CLAIM C7.  Fetched NFTs are partitioned by the spam flag: spam records
go only to the spam list and touch no counter; clean records go to the
main list and bump `nft_count` plus the matching ERC721/ERC1155 counter;
`spam_count` is the spam list's length; one spam plus one clean NFT yield
`nft_count = 1`, `spam_count = 1`, the spam item absent from the main
list. -/
theorem nft_spam_partition :
    (∀ (chain : String) (nfts : List NFT),
        (processNfts chain nfts).spam_assets =
          (nfts.filter (fun n => n.is_spam)).map (evmNftToAsset chain)
      ∧ (processNfts chain nfts).assets =
          (nfts.filter (fun n => !n.is_spam)).map (evmNftToAsset chain)
      ∧ (processNfts chain nfts).nft_count = (nfts.filter (fun n => !n.is_spam)).length
      ∧ (processNfts chain nfts).erc721_count =
          (nfts.filter (fun n => !n.is_spam && n.token_type == "ERC721")).length
      ∧ (processNfts chain nfts).erc1155_count =
          (nfts.filter (fun n => !n.is_spam && n.token_type == "ERC1155")).length)
    ∧ (∀ (chain : String) (d : EVMFetchData) (res : ScanResult), evmScan chain d = .ok res →
        res.spam_count = res.spam_assets.length
      ∧ (∀ a ∈ res.assets, a.is_spam = false)
      ∧ (∀ a ∈ res.spam_assets, a.is_spam = true))
    ∧ (evmScan "ethereum"
          ⟨.ok 0, .ok [], fun _ => .ok ⟨none, none, none, none⟩,
           .ok [⟨"0xspamc", "7", "ERC721", some "Spam", some "SpamColl", "1", true⟩,
                ⟨"0xgoodc", "8", "ERC721", some "Good", some "GoodColl", "1", false⟩]⟩ =
        .ok { chain := "ethereum",
              assets := [evmNftToAsset "ethereum"
                ⟨"0xgoodc", "8", "ERC721", some "Good", some "GoodColl", "1", false⟩],
              spam_assets := [evmNftToAsset "ethereum"
                ⟨"0xspamc", "7", "ERC721", some "Spam", some "SpamColl", "1", true⟩],
              native_count := 0, token_count := 0, nft_count := 1, erc721_count := 1,
              erc1155_count := 0, spam_count := 1, skipped_tokens := 0, error := none }
      ∧ evmNftToAsset "ethereum" ⟨"0xspamc", "7", "ERC721", some "Spam", some "SpamColl", "1", true⟩
          ∉ [evmNftToAsset "ethereum"
              ⟨"0xgoodc", "8", "ERC721", some "Good", some "GoodColl", "1", false⟩]) := by
  refine ⟨?_, fun chain d res h => evmScan_ok_flags chain d res h, by decide, by decide⟩
  intro chain nfts
  rw [processNfts_spec chain nfts]
  exact ⟨rfl, rfl, rfl, rfl, rfl⟩

/-- Witness for C7's conditional part: the concrete two-NFT scan. -/
theorem nft_spam_partition_witness :
    (evmScan "ethereum"
        ⟨.ok 0, .ok [], fun _ => .ok ⟨none, none, none, none⟩,
         .ok [⟨"0xspamc", "7", "ERC721", some "Spam", some "SpamColl", "1", true⟩,
              ⟨"0xgoodc", "8", "ERC721", some "Good", some "GoodColl", "1", false⟩]⟩ =
      .ok { chain := "ethereum",
            assets := [evmNftToAsset "ethereum"
              ⟨"0xgoodc", "8", "ERC721", some "Good", some "GoodColl", "1", false⟩],
            spam_assets := [evmNftToAsset "ethereum"
              ⟨"0xspamc", "7", "ERC721", some "Spam", some "SpamColl", "1", true⟩],
            native_count := 0, token_count := 0, nft_count := 1, erc721_count := 1,
            erc1155_count := 0, spam_count := 1, skipped_tokens := 0, error := none })
    ∧ ((1 : Nat) = 1 ∧ (∀ a ∈ [evmNftToAsset "ethereum"
          ⟨"0xgoodc", "8", "ERC721", some "Good", some "GoodColl", "1", false⟩],
            a.is_spam = false)
      ∧ (∀ a ∈ [evmNftToAsset "ethereum"
          ⟨"0xspamc", "7", "ERC721", some "Spam", some "SpamColl", "1", true⟩],
            a.is_spam = true)) := by
  constructor
  · exact nft_spam_partition.2.2.1
  · exact nft_spam_partition.2.1 "ethereum" _ _ nft_spam_partition.2.2.1

/-! ## The Solana scan -/

/-- The loop appends exactly one mapped asset per input record. -/
theorem solanaLoop_assets (chain : String) : ∀ (sas : List SolanaAsset) (acc : SolFold),
    (solanaLoop chain acc sas).assets = acc.assets ++ sas.map (solanaAssetToAsset chain) := by
  intro sas
  induction sas with
  | nil => intro acc; simp [solanaLoop]
  | cons sa rest ih =>
    intro acc
    simp only [solanaLoop]
    split_ifs <;> simp [ih, List.append_assoc]

/-- `native_count` is only ever left alone or set to 1. -/
theorem solanaLoop_native_le (chain : String) : ∀ (sas : List SolanaAsset) (acc : SolFold),
    acc.native_count ≤ 1 → (solanaLoop chain acc sas).native_count ≤ 1 := by
  intro sas
  induction sas with
  | nil => intro acc h; exact h
  | cons sa rest ih =>
    intro acc h
    simp only [solanaLoop]
    split_ifs <;> exact ih _ (by first | exact Nat.le_refl 1 | exact h)

/-- CLAIM C8.  A fungible asset with symbol "SOL" and the wrapped-SOL mint
as id is emitted with tokenType NATIVE and address "NATIVE" and counted as
the (at most one) native asset; the concrete wrapped-SOL record with
balance 2500000000 and decimals 9 yields quantity "2.5"; `spam_assets` is
empty for every Solana scan input. -/
theorem solana_native_special_case :
    (∀ (chain : String) (d : Except AlchemyError (List SolanaAsset)),
      (solanaScan chain d).spam_assets = [])
    ∧ (∀ (chain : String) (d : Except AlchemyError (List SolanaAsset)),
      (solanaScan chain d).native_count ≤ 1)
    ∧ (∀ (chain : String) (sas : List SolanaAsset),
      (solanaScan chain (.ok sas)).assets = sas.map (solanaAssetToAsset chain))
    ∧ (∀ (chain : String) (sa : SolanaAsset) (b : Nat),
      solanaIsFungible sa = true → sa.balance = some b → solanaIsNativeSol sa = true →
      solanaAssetToAsset chain sa =
        { chain := chain, asset_name := pyOrStr sa.name "Solana", symbol := "SOL",
          asset_address := "NATIVE", quantity := format_quantity b (pyOrNat sa.decimals 9),
          token_type := "NATIVE", token_id := none, collection_name := none, is_spam := false })
    ∧ (solanaScan "solana"
        (.ok [⟨WRAPPED_SOL_MINT, "FungibleToken", none, some "SOL", some 2500000000, some 9⟩]) =
      { chain := "solana",
        assets := [{ chain := "solana", asset_name := "Solana", symbol := "SOL",
                     asset_address := "NATIVE", quantity := "2.5", token_type := "NATIVE",
                     token_id := none, collection_name := none, is_spam := false }],
        spam_assets := [], native_count := 1, token_count := 0, nft_count := 0,
        erc721_count := 0, erc1155_count := 0, spam_count := 0, skipped_tokens := 0,
        error := none }) := by
  refine ⟨?_, ?_, ?_, ?_, by decide⟩
  · intro chain d; cases d <;> rfl
  · intro chain d
    cases d with
    | error e => exact Nat.zero_le 1
    | ok sas => exact solanaLoop_native_le chain sas ⟨[], 0, 0, 0⟩ (Nat.zero_le 1)
  · intro chain sas
    have h := solanaLoop_assets chain sas ⟨[], 0, 0, 0⟩
    simpa [solanaScan] using h
  · intro chain sa b hf hb hn
    simp [solanaAssetToAsset, hf, hb, hn]

/-- Witness for C8's conditional part: wrapped SOL with balance 2.5e9. -/
theorem solana_native_special_case_witness :
    solanaAssetToAsset "solana"
        ⟨WRAPPED_SOL_MINT, "FungibleToken", none, some "SOL", some 2500000000, some 9⟩ =
      { chain := "solana", asset_name := "Solana", symbol := "SOL", asset_address := "NATIVE",
        quantity := "2.5", token_type := "NATIVE", token_id := none, collection_name := none,
        is_spam := false } := by
  have h := solana_native_special_case.2.2.2.1 "solana"
    ⟨WRAPPED_SOL_MINT, "FungibleToken", none, some "SOL", some 2500000000, some 9⟩
    2500000000 rfl rfl rfl
  exact h.trans (by decide)

/-- CLAIM C10.  A Solana asset whose interface is FungibleToken or
FungibleAsset but whose balance is absent falls into the NFT branch: the
emitted asset has tokenType "SPL" (the interface table's image), quantity
"1", tokenId equal to the asset id, and it increments `nft_count`, not
`token_count`. -/
theorem solana_fungible_without_balance (chain : String) (sa : SolanaAsset)
    (hf : solanaIsFungible sa = true) (hb : sa.balance = none) :
    solanaAssetToAsset chain sa =
      { chain := chain, asset_name := pyOrStr sa.name "", symbol := pyOrStr sa.symbol "",
        asset_address := sa.asset_id, quantity := "1", token_type := "SPL",
        token_id := some sa.asset_id, collection_name := none, is_spam := false }
    ∧ (solanaScan chain (.ok [sa])).nft_count = 1
    ∧ (solanaScan chain (.ok [sa])).token_count = 0
    ∧ (solanaScan chain (.ok [sa])).native_count = 0 := by
  have hi : sa.interface = "FungibleToken" ∨ sa.interface = "FungibleAsset" := by
    have := of_decide_eq_true hf
    exact this
  have htt : INTERFACE_TO_TOKEN_TYPE sa.interface = some "SPL" := by
    rcases hi with hi | hi <;> rw [hi] <;> rfl
  refine ⟨?_, ?_, ?_, ?_⟩
  · simp [solanaAssetToAsset, hf, hb, htt]
  · simp [solanaScan, solanaLoop, hb]
  · simp [solanaScan, solanaLoop, hb]
  · simp [solanaScan, solanaLoop, hb]

/-- Witness for C10: a balance-less FungibleToken record. -/
theorem solana_fungible_without_balance_witness :
    solanaAssetToAsset "solana" ⟨"MintXYZ", "FungibleToken", some "Tok", some "TOK", none, none⟩ =
      { chain := "solana", asset_name := "Tok", symbol := "TOK", asset_address := "MintXYZ",
        quantity := "1", token_type := "SPL", token_id := some "MintXYZ",
        collection_name := none, is_spam := false }
    ∧ (solanaScan "solana"
        (.ok [⟨"MintXYZ", "FungibleToken", some "Tok", some "TOK", none, none⟩])).nft_count = 1 := by
  have h := solana_fungible_without_balance "solana"
    ⟨"MintXYZ", "FungibleToken", some "Tok", some "TOK", none, none⟩ rfl rfl
  exact ⟨h.1.trans (by decide), h.2.1⟩

/-! ## The decimals `or`-default (claim C9) -/

/-- CLAIM C9 (failing input).  A token metadata record with an explicit
`decimals = 0` is formatted with the default (18 on EVM, 9 on Solana)
because Python's `metadata.decimals or 18` treats 0 as falsy: a token with
decimals 0 and raw balance 5 (hex "0x5") is reported as quantity
"0.000000000000000005" although the claim requires the 0-decimal rendering
"5". -/
theorem decimals_zero_treated_as_absent :
    pyOrNat (some 0) 18 = 18
    ∧ pyOrNat (some 0) 9 = 9
    ∧ ((evmScan "ethereum"
          ⟨.ok 0, .ok [⟨"0xzerodec", "0x5"⟩],
           fun _ => .ok ⟨some "Zero", some "ZRO", some 0, none⟩, .ok []⟩).toOption.map
        (fun r => r.assets.map (fun a => a.quantity))) = some ["0.000000000000000005"]
    ∧ format_quantity 5 0 = "5"
    ∧ ("0.000000000000000005" : String) ≠ "5" := by
  refine ⟨rfl, rfl, rfl, rfl, by decide⟩

/-! ## Token-balance pagination (claim C6) -/

/-- Every balance the page filter keeps is present (not the absent-field
default `"0x0"`, not empty) and decodes to a positive integer. -/
theorem filterTokenEntries_positive : ∀ (entries : List RawTokenEntry) (f : List TokenBalance),
    filterTokenEntries entries = .ok f →
    ∀ tb ∈ f, tb.balance ≠ "" ∧ tb.balance ≠ "0x0"
      ∧ ∃ v, pythonIntHex tb.balance = some v ∧ 0 < v := by
  intro entries
  induction entries with
  | nil =>
    intro f h tb htb
    cases h
    simp at htb
  | cons e rest ih =>
    intro f h tb htb
    simp only [filterTokenEntries] at h
    split_ifs at h with hskip
    · exact ih f h tb htb
    · push_neg at hskip
      cases hx : pythonIntHex (e.tokenBalance.getD "0x0") with
      | none => rw [hx] at h; cases h
      | some v =>
        rw [hx] at h
        dsimp only at h
        split_ifs at h with hv
        · cases hr : filterTokenEntries rest with
          | error e2 => rw [hr] at h; cases h
          | ok acc =>
            rw [hr] at h
            cases h
            rcases List.mem_cons.mp htb with rfl | hmem
            · exact ⟨hskip.1, hskip.2, v, hx, hv⟩
            · exact ih acc hr tb hmem
        · exact ih f h tb htb

/-- CLAIM C6.  The pagination loop requests another page exactly while the
response carries a non-empty `pageKey`; pages' kept entries are
concatenated in page order (two pages, cursor only on the first: two
upstream calls, first page's entries before the second's); every returned
balance is present and positive. -/
theorem token_balance_pagination :
    (∀ (pages : List TokenBalancesPage) (res : List TokenBalance) (n : Nat),
      getTokenBalancesLoop pages = .ok (res, n) →
      ∀ tb ∈ res, tb.balance ≠ "" ∧ tb.balance ≠ "0x0"
        ∧ ∃ v, pythonIntHex tb.balance = some v ∧ 0 < v)
    ∧ (∀ (entries : List RawTokenEntry) (rest : List TokenBalancesPage),
      getTokenBalancesLoop ({ tokenBalances := entries, pageKey := none } :: rest) =
        (filterTokenEntries entries).map (fun f => (f, 1)))
    ∧ (∀ (entries : List RawTokenEntry) (rest : List TokenBalancesPage),
      getTokenBalancesLoop ({ tokenBalances := entries, pageKey := some "" } :: rest) =
        (filterTokenEntries entries).map (fun f => (f, 1)))
    ∧ (∀ (e1 e2 : List RawTokenEntry) (k : String) (f1 f2 : List TokenBalance),
      k ≠ "" → filterTokenEntries e1 = .ok f1 → filterTokenEntries e2 = .ok f2 →
      getTokenBalancesLoop [⟨e1, some k⟩, ⟨e2, none⟩] = .ok (f1 ++ f2, 2)) := by
  refine ⟨?_, ?_, ?_, ?_⟩
  · intro pages
    induction pages with
    | nil =>
      intro res n h tb htb
      cases h
      simp at htb
    | cons p rest ih =>
      intro res n h tb htb
      simp only [getTokenBalancesLoop] at h
      cases hf : filterTokenEntries p.tokenBalances with
      | error e => rw [hf] at h; cases h
      | ok filtered =>
        rw [hf] at h
        dsimp only at h
        cases hk : p.pageKey with
        | none =>
          rw [hk] at h
          cases h
          exact filterTokenEntries_positive p.tokenBalances _ hf tb htb
        | some k =>
          rw [hk] at h
          dsimp only at h
          split_ifs at h with hke
          · cases h
            exact filterTokenEntries_positive p.tokenBalances _ hf tb htb
          · cases hrest : getTokenBalancesLoop rest with
            | error e => rw [hrest] at h; cases h
            | ok pr =>
              rw [hrest] at h
              cases h
              rcases List.mem_append.mp htb with hmem | hmem
              · exact filterTokenEntries_positive p.tokenBalances _ hf tb hmem
              · exact ih pr.1 pr.2 (by rw [hrest]) tb hmem
  · intro entries rest
    cases hf : filterTokenEntries entries <;> simp [getTokenBalancesLoop, hf, Except.map]
  · intro entries rest
    cases hf : filterTokenEntries entries <;> simp [getTokenBalancesLoop, hf, Except.map]
  · intro e1 e2 k f1 f2 hk h1 h2
    simp [getTokenBalancesLoop, h1, h2, hk]

/-- Witness for C6: two concrete pages, cursor only on the first. -/
theorem token_balance_pagination_witness :
    getTokenBalancesLoop
        [⟨[⟨some "0xToken1", some "0x100"⟩], some "next_page_key"⟩,
         ⟨[⟨some "0xToken2", some "0x200"⟩], none⟩] =
      .ok ([⟨"0xToken1", "0x100"⟩, ⟨"0xToken2", "0x200"⟩], 2) := by
  have h := token_balance_pagination.2.2.2 [⟨some "0xToken1", some "0x100"⟩]
    [⟨some "0xToken2", some "0x200"⟩] "next_page_key"
    [⟨"0xToken1", "0x100"⟩] [⟨"0xToken2", "0x200"⟩] (by decide) rfl rfl
  exact h.trans (by decide)

/-! ## Credential redaction (claim C4) -/

/-- A list sharing no character with `key` can be peeled off the front of
a substring search for `key`. -/
theorem containsSub_append_left (key : List Char) (hkey : key ≠ []) :
    ∀ pre l : List Char, (∀ c ∈ pre, c ∉ key) →
      containsSub key (pre ++ l) = containsSub key l := by
  intro pre
  induction pre with
  | nil => intro l _; rfl
  | cons p pre' ih =>
    intro l hdisj
    obtain ⟨k, key', rfl⟩ := List.exists_cons_of_ne_nil hkey
    show ((k :: key').isPrefixOf (p :: (pre' ++ l)) || containsSub (k :: key') (pre' ++ l)) =
      containsSub (k :: key') l
    have hpref : (k :: key').isPrefixOf (p :: (pre' ++ l)) = false := by
      cases hkp : (k == p) with
      | false => simp [List.isPrefixOf_cons₂, hkp]
      | true =>
        have hmem : p ∈ k :: key' := by
          rw [eq_of_beq hkp]; exact List.mem_cons_self p key'
        exact absurd hmem (hdisj p (List.mem_cons_self p pre'))
    rw [hpref, Bool.false_or]
    exact ih l (fun c hc => hdisj c (List.mem_cons_of_mem p hc))

/-- If `ks` shares no character with `rep`, then being a prefix of a
replacement output means being a prefix of the input. -/
theorem isPrefixOf_replaceAux (rep : List Char) (hrep : rep ≠ []) :
    ∀ (fuel : Nat) (t ks key : List Char),
      (∀ c ∈ ks, c ∉ rep) → t.length < fuel →
      ks.isPrefixOf (replaceAux key rep fuel t) = true → ks.isPrefixOf t = true := by
  intro fuel
  induction fuel with
  | zero => intro t ks key _ hlt _; exact absurd hlt (Nat.not_lt_zero _)
  | succ f ih =>
    intro t ks key hdisj hlt h
    have headNotRep : ∀ (ks' rest' : List Char), ks = ks' →
        ks'.isPrefixOf (rep ++ rest') = true → ks' = [] := by
      intro ks' rest' hks hp
      cases ks' with
      | nil => rfl
      | cons k ks'' =>
        obtain ⟨r, rep', rfl⟩ := List.exists_cons_of_ne_nil hrep
        simp only [List.cons_append, List.isPrefixOf_cons₂, Bool.and_eq_true, beq_iff_eq] at hp
        have hkrep : k ∈ r :: rep' := by
          rw [← hp.1]; exact List.mem_cons_self k rep'
        have hkks : k ∈ ks := by rw [hks]; exact List.mem_cons_self k ks''
        exact absurd hkrep (hdisj k hkks)
    cases t with
    | nil =>
      simp only [replaceAux] at h
      by_cases hke : key.isEmpty
      · rw [if_pos hke] at h
        have := headNotRep ks [] rfl (by simpa using h)
        subst this
        exact List.isPrefixOf_nil_left
      · rw [if_neg hke] at h
        cases ks with
        | nil => exact List.isPrefixOf_nil_left
        | cons k ks' => exact absurd h (by simp)
    | cons c rest =>
      simp only [replaceAux] at h
      split_ifs at h with h1 h2
      · have := headNotRep ks _ rfl h
        subst this
        exact List.isPrefixOf_nil_left
      · have := headNotRep ks _ rfl h
        subst this
        exact List.isPrefixOf_nil_left
      · cases ks with
        | nil => exact List.isPrefixOf_nil_left
        | cons k ks' =>
          simp only [List.isPrefixOf_cons₂, Bool.and_eq_true, beq_iff_eq] at h
          obtain ⟨rfl, h'⟩ := h
          have hrest : ks'.isPrefixOf rest = true := by
            refine ih rest ks' key ?_ ?_ h'
            · exact fun c' hc' => hdisj c' (List.mem_cons_of_mem _ hc')
            · have : rest.length + 1 < f + 1 := by simpa using hlt
              omega
          simp [List.isPrefixOf_cons₂, hrest]

/-- The replacement output never contains `key` as a substring, provided
`key` is non-empty and shares no character with the replacement text. -/
theorem containsSub_replaceAux (key rep : List Char) (hkey : key ≠ []) (hrep : rep ≠ [])
    (hdisj : ∀ c ∈ rep, c ∉ key) :
    ∀ (fuel : Nat) (s : List Char), s.length < fuel →
      containsSub key (replaceAux key rep fuel s) = false := by
  intro fuel
  induction fuel with
  | zero => intro s h; exact absurd h (Nat.not_lt_zero _)
  | succ f ih =>
    intro s hlt
    have hkeyEmpty : key.isEmpty = false := by
      cases key with
      | nil => exact absurd rfl hkey
      | cons a b => rfl
    cases s with
    | nil =>
      simp only [replaceAux, hkeyEmpty, Bool.false_eq_true, if_false]
      simp [containsSub, hkeyEmpty]
    | cons c rest =>
      have hlen : rest.length + 1 ≤ f := by simpa using Nat.lt_succ_iff.mp hlt
      simp only [replaceAux]
      split_ifs with h1 h2
      · rw [containsSub_append_left key hkey rep _ hdisj]
        apply ih
        have hklen : 1 ≤ key.length := by
          cases key with
          | nil => exact absurd rfl hkey
          | cons a b => simp
        have : (List.drop key.length (c :: rest)).length = rest.length + 1 - key.length := by
          simp [List.length_drop]
        omega
      · exact absurd h2 (by simp [hkeyEmpty])
      · have htail : containsSub key (replaceAux key rep f rest) = false := ih rest (by omega)
        simp only [containsSub, htail, Bool.or_false]
        cases hb : key.isPrefixOf (c :: replaceAux key rep f rest) with
        | false => rfl
        | true =>
          exfalso
          obtain ⟨k, key', rfl⟩ := List.exists_cons_of_ne_nil hkey
          simp only [List.isPrefixOf_cons₂, Bool.and_eq_true, beq_iff_eq] at hb
          obtain ⟨rfl, hb'⟩ := hb
          have hdisj' : ∀ c' ∈ key', c' ∉ rep := by
            intro c' hc' hcrep
            exact (hdisj c' hcrep) (List.mem_cons_of_mem _ hc')
          have hpre : key'.isPrefixOf rest = true :=
            isPrefixOf_replaceAux rep hrep f rest key' _ hdisj' (by omega) hb'
          exact h1 ⟨hkey, by simp [List.isPrefixOf_cons₂, hpre]⟩

/-- Sanitization removes every occurrence of a credential that is
non-empty and shares no character with the placeholder `"[REDACTED]"`. -/
theorem sanitize_removes_key (key msg : String) (hkey : key.toList ≠ [])
    (hdisj : ∀ c ∈ "[REDACTED]".toList, c ∉ key.toList) :
    containsSub key.toList (sanitizeErrorMessage key msg).toList = false := by
  unfold sanitizeErrorMessage pyReplace
  exact containsSub_replaceAux key.toList "[REDACTED]".toList hkey (by decide) hdisj
    (msg.toList.length + 1) msg.toList (Nat.lt_succ_self _)

/-- The loop on a persistent transport failure: retried to exhaustion,
then `AlchemyAPIError` with the sanitized exception text and no status. -/
theorem executeRetryLoop_transport_fail (env : RetryEnv) (o : Nat → ReqOutcome) (msg : String)
    (ho : ∀ i, o i = .exn msg) :
    ∀ fuel attempt, 1 ≤ fuel → executeRetryLoop env o attempt fuel =
      (.error (.apiError ("Request failed: " ++ sanitizeErrorMessage env.apiKey msg) none),
        fuel) := by
  intro fuel
  induction fuel with
  | zero => intro a h; exact absurd h (by decide)
  | succ k ih =>
    intro a _
    simp only [executeRetryLoop, ho a]
    cases k with
    | zero => rfl
    | succ m =>
      have hrec := ih (a + 1) (Nat.succ_le_succ (Nat.zero_le m))
      simp [hrec]

/-- CLAIM C4 (amended).  The transport-failure path raises an error whose
message is `"Request failed: "` followed by the sanitized exception text —
sanitization being `message.replace(api_key, "[REDACTED]")` — and for a
credential that is non-empty and shares no character with the placeholder
or the `"Request failed: "` prelude, the credential does not occur in the
raised message.  (The JSON-RPC error path does NOT sanitize; see the
counterexample.) -/
theorem credential_redaction :
    (∀ (env : RetryEnv) (msg : String),
      executeWithRetry env (fun _ => .exn msg) =
        (.error (.apiError ("Request failed: " ++ sanitizeErrorMessage env.apiKey msg) none),
          env.maxRetries + 1))
    ∧ (∀ (env : RetryEnv) (msg : String),
      env.apiKey.toList ≠ [] →
      (∀ c ∈ "[REDACTED]".toList, c ∉ env.apiKey.toList) →
      (∀ c ∈ "Request failed: ".toList, c ∉ env.apiKey.toList) →
      containsSub env.apiKey.toList
        ("Request failed: " ++ sanitizeErrorMessage env.apiKey msg).toList = false) := by
  constructor
  · intro env msg
    exact executeRetryLoop_transport_fail env _ msg (fun _ => rfl)
      (env.maxRetries + 1) 0 (Nat.succ_le_succ (Nat.zero_le _))
  · intro env msg hkey hdisjRep hdisjPre
    have hsplit : ("Request failed: " ++ sanitizeErrorMessage env.apiKey msg).toList =
        "Request failed: ".toList ++ (sanitizeErrorMessage env.apiKey msg).toList := by
      simp [String.toList]
    rw [hsplit, containsSub_append_left env.apiKey.toList hkey _ _
      (fun c hc => hdisjPre c hc)]
    exact sanitize_removes_key env.apiKey msg hkey hdisjRep

/-- Witness for the amended C4: an alphanumeric credential disjoint from
the fixed strings, embedded in a transport-error message. -/
theorem credential_redaction_witness :
    executeWithRetry ⟨"XYZ123", 0, fun _ => ""⟩ (fun _ => .exn "url /v2/XYZ123/x failed") =
      (.error (.apiError "Request failed: url /v2/[REDACTED]/x failed" none), 1)
    ∧ containsSub "XYZ123".toList
        ("Request failed: " ++
          sanitizeErrorMessage "XYZ123" "url /v2/XYZ123/x failed").toList = false := by
  constructor
  · exact (credential_redaction.1 ⟨"XYZ123", 0, fun _ => ""⟩ "url /v2/XYZ123/x failed").trans
      (by decide)
  · exact credential_redaction.2 ⟨"XYZ123", 0, fun _ => ""⟩ "url /v2/XYZ123/x failed"
      (by decide) (by decide) (by decide)

/-- CLAIM C4 (counterexample).  The JSON-RPC error path surfaces the
upstream error message verbatim: a credential echoed there appears
unredacted in the raised error's message, and no placeholder appears. -/
theorem credential_leak_via_rpc_error :
    handleRpcData (0 : Nat) none
        (some { code := some (-32000), message := some "Invalid key SECRETKEY", str := "" }) =
      .error (.apiError "API error: Invalid key SECRETKEY" (some (-32000)))
    ∧ containsSub "SECRETKEY".toList "API error: Invalid key SECRETKEY".toList = true
    ∧ containsSub "[REDACTED]".toList "API error: Invalid key SECRETKEY".toList = false := by
  exact ⟨rfl, by decide, by decide⟩

/-! ## Digit rendering: supporting lemmas for claim C3 -/

/-- The accumulator of `natToDigitsAux` is a plain suffix. -/
theorem natToDigitsAux_append : ∀ (fuel n : Nat) (acc : List Char),
    natToDigitsAux fuel n acc = natToDigitsAux fuel n [] ++ acc := by
  intro fuel
  induction fuel with
  | zero => intro n acc; rfl
  | succ f ih =>
    intro n acc
    simp only [natToDigitsAux]
    by_cases h : n < 10
    · simp [h]
    · rw [if_neg h, if_neg h, ih (n / 10) (digitChar (n % 10) :: acc),
        ih (n / 10) [digitChar (n % 10)], List.append_assoc]
      rfl

/-- Any sufficient fuel produces the same digits. -/
theorem natToDigitsAux_fuel : ∀ (n f₁ f₂ : Nat), n < f₁ → n < f₂ → ∀ acc : List Char,
    natToDigitsAux f₁ n acc = natToDigitsAux f₂ n acc := by
  intro n
  induction n using Nat.strong_induction_on with
  | _ n ih =>
    intro f₁ f₂ h₁ h₂ acc
    obtain ⟨g₁, rfl⟩ : ∃ g, f₁ = g + 1 := ⟨f₁ - 1, by omega⟩
    obtain ⟨g₂, rfl⟩ : ∃ g, f₂ = g + 1 := ⟨f₂ - 1, by omega⟩
    simp only [natToDigitsAux]
    by_cases h : n < 10
    · simp [h]
    · rw [if_neg h, if_neg h]
      have hdiv : n / 10 < n := Nat.div_lt_self (by omega) (by omega)
      exact ih (n / 10) hdiv g₁ g₂ (by omega) (by omega) _

/-- The defining recursion of the digit string. -/
theorem natToStrList_eq (n : Nat) :
    natToStrList n =
      if n < 10 then [digitChar n] else natToStrList (n / 10) ++ [digitChar (n % 10)] := by
  by_cases h : n < 10
  · simp [natToStrList, natToDigitsAux, h]
  · rw [if_neg h]
    show natToDigitsAux (n + 1) n [] = _
    simp only [natToDigitsAux, if_neg h]
    have hdiv : n / 10 < n := Nat.div_lt_self (by omega) (by omega)
    rw [natToDigitsAux_append, natToDigitsAux_fuel (n / 10) n (n / 10 + 1) (by omega)
      (Nat.lt_succ_self _)]
    rfl

theorem natToStrList_ne_nil (n : Nat) : natToStrList n ≠ [] := by
  rw [natToStrList_eq]
  by_cases h : n < 10 <;> simp [h]

/-- The digit string always ends with the character of `n % 10`. -/
theorem natToStrList_last (n : Nat) :
    ∃ l : List Char, natToStrList n = l ++ [digitChar (n % 10)] := by
  rw [natToStrList_eq]
  by_cases h : n < 10
  · exact ⟨[], by simp [h, Nat.mod_eq_of_lt h]⟩
  · exact ⟨natToStrList (n / 10), by simp [h]⟩

/-- Every character of the digit string is a digit character. -/
theorem natToStrList_digits : ∀ (n : Nat), ∀ c ∈ natToStrList n, ∃ dd, dd < 10 ∧ c = digitChar dd := by
  intro n
  induction n using Nat.strong_induction_on with
  | _ n ih =>
    intro c hc
    rw [natToStrList_eq] at hc
    by_cases h : n < 10
    · rw [if_pos h] at hc
      rcases List.mem_singleton.mp hc with rfl
      exact ⟨n, h, rfl⟩
    · rw [if_neg h] at hc
      rcases List.mem_append.mp hc with hc | hc
      · exact ih (n / 10) (Nat.div_lt_self (by omega) (by omega)) c hc
      · rcases List.mem_singleton.mp hc with rfl
        exact ⟨n % 10, Nat.mod_lt n (by omega), rfl⟩

theorem digitChar_ne_dot (dd : Nat) : digitChar dd ≠ '.' := by
  unfold digitChar
  split <;> decide

theorem digitChar_ne_zero (dd : Nat) (h10 : dd < 10) (h0 : dd ≠ 0) : digitChar dd ≠ '0' := by
  interval_cases dd <;> first | exact absurd rfl h0 | decide

theorem numDigits_pos (n : Nat) : 1 ≤ numDigits n := by
  have := natToStrList_ne_nil n
  unfold numDigits
  cases hs : natToStrList n with
  | nil => exact absurd hs this
  | cons a l => simp

/-- The digit-count recursion. -/
theorem numDigits_eq (n : Nat) :
    numDigits n = if n < 10 then 1 else numDigits (n / 10) + 1 := by
  unfold numDigits
  rw [natToStrList_eq]
  by_cases h : n < 10 <;> simp [h]

/-- `len(str(n)) ≤ k + 1` iff `n < 10 ^ (k + 1)`. -/
theorem numDigits_le_iff : ∀ (n k : Nat), numDigits n ≤ k + 1 ↔ n < 10 ^ (k + 1) := by
  intro n
  induction n using Nat.strong_induction_on with
  | _ n ih =>
    intro k
    rw [numDigits_eq]
    by_cases h : n < 10
    · rw [if_pos h]
      have : 10 ≤ 10 ^ (k + 1) := by
        calc 10 = 10 ^ 1 := by norm_num
        _ ≤ 10 ^ (k + 1) := Nat.pow_le_pow_right (by omega) (by omega)
      constructor
      · intro _; omega
      · intro _; omega
    · rw [if_neg h]
      cases k with
      | zero =>
        have h2 : 2 ≤ numDigits (n / 10) + 1 := by
          have := numDigits_pos (n / 10)
          omega
        constructor
        · intro hle; omega
        · intro hlt; norm_num at hlt; omega
      | succ k' =>
        have hdiv : n / 10 < n := Nat.div_lt_self (by omega) (by omega)
        have hiff := ih (n / 10) hdiv k'
        have hmul : n / 10 < 10 ^ (k' + 1) ↔ n < 10 ^ (k' + 1 + 1) := by
          rw [Nat.pow_succ]
          exact Nat.div_lt_iff_lt_mul (by omega)
        constructor
        · intro hle
          exact hmul.mp (hiff.mp (by omega))
        · intro hlt
          have := hiff.mpr (hmul.mpr hlt)
          omega

theorem numDigits_le_of_lt (n : Nat) (h : n < 10 ^ 28) : numDigits n ≤ 28 :=
  (numDigits_le_iff n 27).mpr h

theorem numDigits_pow10 : ∀ d : Nat, numDigits (10 ^ d) = d + 1 := by
  intro d
  induction d with
  | zero => decide
  | succ d' ih =>
    rw [numDigits_eq, if_neg, Nat.pow_succ, Nat.mul_div_cancel _ (by omega), ih]
    have h1 : 1 ≤ 10 ^ d' := Nat.one_le_pow d' 10 (by omega)
    rw [Nat.pow_succ]
    omega

/-! ## The 10-adic valuation -/

theorem tenValAux_fuel : ∀ (n f₁ f₂ : Nat), n < f₁ → n < f₂ →
    tenValAux f₁ n = tenValAux f₂ n := by
  intro n
  induction n using Nat.strong_induction_on with
  | _ n ih =>
    intro f₁ f₂ h₁ h₂
    obtain ⟨g₁, rfl⟩ : ∃ g, f₁ = g + 1 := ⟨f₁ - 1, by omega⟩
    obtain ⟨g₂, rfl⟩ : ∃ g, f₂ = g + 1 := ⟨f₂ - 1, by omega⟩
    simp only [tenValAux]
    by_cases h : n ≠ 0 ∧ n % 10 = 0
    · rw [if_pos h, if_pos h]
      have hdiv : n / 10 < n := Nat.div_lt_self (by omega) (by omega)
      rw [ih (n / 10) hdiv g₁ g₂ (by omega) (by omega)]
    · rw [if_neg h, if_neg h]

/-- The defining recursion of `tenVal`. -/
theorem tenVal_eq (n : Nat) :
    tenVal n = if n ≠ 0 ∧ n % 10 = 0 then tenVal (n / 10) + 1 else 0 := by
  show tenValAux (n + 1) n = _
  simp only [tenValAux]
  by_cases h : n ≠ 0 ∧ n % 10 = 0
  · rw [if_pos h, if_pos h]
    have hdiv : n / 10 < n := Nat.div_lt_self (by omega) (by omega)
    rw [tenValAux_fuel (n / 10) n (n / 10 + 1) (by omega) (Nat.lt_succ_self _)]
    rfl
  · rw [if_neg h, if_neg h]

/-- `n = (n / 10^tenVal n) · 10^tenVal n` with a final non-zero digit. -/
theorem tenVal_decompose : ∀ n : Nat, n ≠ 0 →
    (n / 10 ^ tenVal n) * 10 ^ tenVal n = n ∧ (n / 10 ^ tenVal n) % 10 ≠ 0 := by
  intro n
  induction n using Nat.strong_induction_on with
  | _ n ih =>
    intro hn
    rw [tenVal_eq]
    by_cases h : n % 10 = 0
    · rw [if_pos ⟨hn, h⟩]
      have h10 : 10 ∣ n := Nat.dvd_of_mod_eq_zero h
      have hge : 10 ≤ n := Nat.le_of_dvd (Nat.pos_of_ne_zero hn) h10
      have hdiv : n / 10 < n := Nat.div_lt_self (by omega) (by omega)
      have hne : n / 10 ≠ 0 := by
        intro h0
        have := Nat.div_mul_cancel h10
        rw [h0] at this
        omega
      obtain ⟨ih1, ih2⟩ := ih (n / 10) hdiv hne
      have hsplit : n / 10 ^ (tenVal (n / 10) + 1) = n / 10 / 10 ^ tenVal (n / 10) := by
        rw [Nat.pow_succ, Nat.mul_comm, ← Nat.div_div_eq_div_mul]
      constructor
      · rw [hsplit, Nat.pow_succ]
        calc n / 10 / 10 ^ tenVal (n / 10) * (10 ^ tenVal (n / 10) * 10)
            = n / 10 / 10 ^ tenVal (n / 10) * 10 ^ tenVal (n / 10) * 10 := by ring
        _ = n / 10 * 10 := by rw [ih1]
        _ = n := Nat.div_mul_cancel h10
      · rw [hsplit]; exact ih2
    · rw [if_neg (fun hc => h hc.2)]
      simpa using h

/-! ## The exact-quotient zero-stripping loop -/

/-- Characterization of the strip loop on `m · 10 ^ a` at exponent `-b`:
it removes `min a b` zeros. -/
theorem stripZerosAux_spec : ∀ (b fuel a m : Nat), m % 10 ≠ 0 → min a b ≤ fuel →
    stripZerosAux fuel (m * 10 ^ a, -(b : Int)) =
      (m * 10 ^ (a - min a b), (min a b : Int) - b) := by
  intro b
  induction b with
  | zero =>
    intro fuel a m hm _
    have : ¬ (-(0 : Int) < 0 ∧ m * 10 ^ a % 10 = 0) := by simp
    cases fuel with
    | zero => simp [stripZerosAux]
    | succ f => simp [stripZerosAux]
  | succ b' ih =>
    intro fuel a m hm hfuel
    cases a with
    | zero =>
      have hcond : ¬ (-((b' + 1 : Nat) : Int) < 0 ∧ m * 10 ^ 0 % 10 = 0) := by
        simp only [pow_zero, Nat.mul_one]
        exact fun hc => hm hc.2
      cases fuel with
      | zero =>
        simp only [stripZerosAux]
        refine congrArg₂ Prod.mk ?_ ?_
        · have : (0 : Nat) - 0 ⊓ (b' + 1) = 0 := by omega
          rw [this]
        · push_cast
          omega
      | succ f =>
        simp only [stripZerosAux, if_neg hcond]
        refine congrArg₂ Prod.mk ?_ ?_
        · have : (0 : Nat) - 0 ⊓ (b' + 1) = 0 := by omega
          rw [this]
        · push_cast
          omega
    | succ a' =>
      have hmin : min (a' + 1) (b' + 1) = min a' b' + 1 := by omega
      rw [hmin] at hfuel
      obtain ⟨f, rfl⟩ : ∃ f, fuel = f + 1 := ⟨fuel - 1, by omega⟩
      have hcond : -((b' + 1 : Nat) : Int) < 0 ∧ m * 10 ^ (a' + 1) % 10 = 0 := by
        constructor
        · have : (0 : Int) < ((b' + 1 : Nat) : Int) := by positivity
          omega
        · rw [Nat.pow_succ, ← Nat.mul_assoc]
          exact Nat.mul_mod_left _ 10
      simp only [stripZerosAux, if_pos hcond]
      have hdivstep : m * 10 ^ (a' + 1) / 10 = m * 10 ^ a' := by
        rw [Nat.pow_succ, ← Nat.mul_assoc]
        exact Nat.mul_div_cancel _ (by omega)
      have hexpstep : -((b' + 1 : Nat) : Int) + 1 = -((b' : Nat) : Int) := by
        push_cast
        ring
      rw [hdivstep, hexpstep, ih f a' m hm (by omega)]
      have hexp : a' + 1 - (a' + 1) ⊓ (b' + 1) = a' - a' ⊓ b' := by omega
      have hint : ((a' : Int) ⊓ (b' : Int)) - (b' : Int) =
          (((a' + 1 : Nat) : Int) ⊓ ((b' + 1 : Nat) : Int)) - ((b' + 1 : Nat) : Int) := by
        push_cast
        omega
      rw [hexp, ← hint]

/-- `_fix` is the identity within precision and above the exponent
floor. -/
theorem fixPrec_of_le (coeff : Nat) (exp : Int) (h : numDigits coeff ≤ 28)
    (he : DEC_ETINY ≤ exp) : fixPrec coeff exp = (coeff, exp) := by
  simp only [DEC_ETINY] at he
  simp only [fixPrec, DEC_ETINY]
  rw [if_neg (by omega)]

/-! ## Stripping is a no-op on canonical renderings -/

theorem contains_eq_false_of_not_mem : ∀ (s : List Char) (c : Char),
    c ∉ s → s.contains c = false := by
  intro s c h
  cases hc : s.contains c with
  | false => rfl
  | true =>
    obtain ⟨a, ha, hbeq⟩ := List.contains_iff_exists_mem_beq.mp hc
    rw [eq_of_beq hbeq] at h
    exact absurd ha h

theorem pyRstripChar_last_ne (c x : Char) (l : List Char) (hx : x ≠ c) :
    pyRstripChar c (l ++ [x]) = l ++ [x] := by
  unfold pyRstripChar
  rw [List.reverse_append]
  simp only [List.reverse_cons, List.reverse_nil, List.nil_append, List.singleton_append]
  rw [List.dropWhile_cons_of_neg (by simpa using hx)]
  simp

/-- No decimal point, no stripping. -/
theorem stripFormatted_of_no_dot (s : List Char) (h : '.' ∉ s) : stripFormatted s = s := by
  unfold stripFormatted
  rw [contains_eq_false_of_not_mem s '.' h]
  simp

/-- A string that contains a point and ends in a non-zero digit strips to
itself. -/
theorem stripFormatted_last_digit (pre : List Char) (dd : Nat) (h10 : dd < 10) (h0 : dd ≠ 0)
    (hdot : '.' ∈ pre) : stripFormatted (pre ++ [digitChar dd]) = pre ++ [digitChar dd] := by
  unfold stripFormatted
  have hcontains : (pre ++ [digitChar dd]).contains '.' = true := by
    cases hc : (pre ++ [digitChar dd]).contains '.' with
    | true => rfl
    | false =>
      exact absurd hc (by
        simp only [Bool.not_eq_false]
        exact List.contains_iff_exists_mem_beq.mpr
          ⟨'.', List.mem_append_left _ hdot, by decide⟩)
  rw [hcontains]
  simp only [if_true]
  rw [pyRstripChar_last_ne '0' (digitChar dd) pre (digitChar_ne_zero dd h10 h0),
    pyRstripChar_last_ne '.' (digitChar dd) pre (digitChar_ne_dot dd)]

theorem dot_not_mem_natToStrList (n : Nat) : '.' ∉ natToStrList n := by
  intro hmem
  obtain ⟨dd, _, hdd⟩ := natToStrList_digits n '.' hmem
  exact digitChar_ne_dot dd hdd.symm

/-! ## The Decimal pipeline is exact below 29 significant digits -/

/-- On inputs below `10 ^ 28` the division is exact and the pipeline
reduces to the stripped canonical pair. -/
theorem decimalDivRaw_exact (r d : Nat) (hr0 : r ≠ 0) (hr : r < 10 ^ 28) :
    decimalDivRaw r d =
      stripZeros ((r / 10 ^ tenVal r) * 10 ^ (tenVal r + (d + 30 - numDigits r - d)))
        (-((d + 30 - numDigits r : Nat) : Int)) := by
  have hna : numDigits r ≤ 28 := numDigits_le_of_lt r hr
  have hna1 : 1 ≤ numDigits r := numDigits_pos r
  obtain ⟨hdec, _⟩ := tenVal_decompose r hr0
  have hSdef : ((numDigits (10 ^ d) : Nat) : Int) - ((numDigits r : Nat) : Int) + 28 + 1 =
      ((d + 30 - numDigits r : Nat) : Int) := by
    rw [numDigits_pow10]
    omega
  have hSd : d ≤ d + 30 - numDigits r := by omega
  have hsplitpow : 10 ^ (d + 30 - numDigits r) =
      10 ^ (d + 30 - numDigits r - d) * 10 ^ d := by
    rw [← pow_add]
    congr 1
    omega
  have hdvd : r * 10 ^ (d + 30 - numDigits r) % 10 ^ d = 0 := by
    rw [hsplitpow, ← Nat.mul_assoc]
    exact Nat.mul_mod_left _ _
  have hcoeff : r * 10 ^ (d + 30 - numDigits r) / 10 ^ d =
      (r / 10 ^ tenVal r) * 10 ^ (tenVal r + (d + 30 - numDigits r - d)) := by
    have h2 : r * 10 ^ (d + 30 - numDigits r) =
        ((r / 10 ^ tenVal r) * 10 ^ (tenVal r + (d + 30 - numDigits r - d))) * 10 ^ d := by
      calc r * 10 ^ (d + 30 - numDigits r)
          = (r / 10 ^ tenVal r * 10 ^ tenVal r) * 10 ^ (d + 30 - numDigits r) := by rw [hdec]
      _ = ((r / 10 ^ tenVal r) * 10 ^ (tenVal r + (d + 30 - numDigits r - d))) * 10 ^ d := by
          rw [Nat.mul_assoc, Nat.mul_assoc, ← pow_add, ← pow_add]
          congr 2
          omega
    rw [h2]
    exact Nat.mul_div_cancel _ (pow_pos (by omega) d)
  simp only [decimalDivRaw, hSdef]
  rw [if_pos (Int.natCast_nonneg _)]
  dsimp only
  rw [Int.toNat_natCast, hdvd, if_neg (fun h => h rfl), hcoeff]

/-- CLAIM C3 core: below `10 ^ 28` (hence at most 28 significant digits,
within the default Decimal precision) and with `d` at most `-Etiny`
(so the result exponent stays above the default context's floor and no
subnormal rounding occurs), `format_quantity` renders the exact rational
`r / 10 ^ d`. -/
theorem format_quantity_eq_exact (r d : Nat) (hr : r < 10 ^ 28) (hd : d ≤ 1000026) :
    format_quantity r d = exactDecimalString r d := by
  by_cases hr0 : r = 0
  · subst hr0
    rfl
  · by_cases hd0 : d = 0
    · subst hd0
      simp only [format_quantity, exactDecimalString, if_neg hr0, if_pos rfl]
      rw [Nat.min_zero, pow_zero, Nat.div_one, Nat.sub_zero]
      show natToStr r = ⟨formatFixedList r (-((0 : Nat) : Int))⟩
      simp only [Nat.cast_zero, neg_zero, formatFixedList, le_refl, if_pos, Int.toNat_zero,
        zerosList, List.replicate, List.append_nil]
      rfl
    · obtain ⟨hdec, hm10⟩ := tenVal_decompose r hr0
      have hna : numDigits r ≤ 28 := numDigits_le_of_lt r hr
      have hna1 : 1 ≤ numDigits r := numDigits_pos r
      have hSd : d + 2 ≤ d + 30 - numDigits r := by omega
      have hq := decimalDivRaw_exact r d hr0 hr
      have hstrip : stripZeros
          ((r / 10 ^ tenVal r) * 10 ^ (tenVal r + (d + 30 - numDigits r - d)))
          (-((d + 30 - numDigits r : Nat) : Int)) =
          ((r / 10 ^ tenVal r) *
            10 ^ (tenVal r + (d + 30 - numDigits r - d) -
              min (tenVal r + (d + 30 - numDigits r - d)) (d + 30 - numDigits r)),
           (min ((tenVal r + (d + 30 - numDigits r - d) : Nat) : Int)
              ((d + 30 - numDigits r : Nat) : Int)) -
            ((d + 30 - numDigits r : Nat) : Int)) := by
        unfold stripZeros
        rw [neg_neg, Int.toNat_natCast]
        exact stripZerosAux_spec (d + 30 - numDigits r) (d + 30 - numDigits r)
          (tenVal r + (d + 30 - numDigits r - d)) (r / 10 ^ tenVal r) hm10
          (Nat.min_le_right _ _)
      by_cases hvd : d ≤ tenVal r
      · -- the value is an integer: all fractional digits strip away
        have hminN : tenVal r + (d + 30 - numDigits r - d) -
            min (tenVal r + (d + 30 - numDigits r - d)) (d + 30 - numDigits r) =
            tenVal r - d := by omega
        have hminZ : (min ((tenVal r + (d + 30 - numDigits r - d) : Nat) : Int)
            ((d + 30 - numDigits r : Nat) : Int)) -
            ((d + 30 - numDigits r : Nat) : Int) = 0 := by omega
        have hle : (r / 10 ^ tenVal r) * 10 ^ (tenVal r - d) ≤ r := by
          calc (r / 10 ^ tenVal r) * 10 ^ (tenVal r - d)
              ≤ (r / 10 ^ tenVal r) * 10 ^ tenVal r :=
                Nat.mul_le_mul_left _ (Nat.pow_le_pow_right (by omega) (by omega))
          _ = r := hdec
        have hfix : fixPrec ((r / 10 ^ tenVal r) * 10 ^ (tenVal r - d)) 0 =
            ((r / 10 ^ tenVal r) * 10 ^ (tenVal r - d), 0) :=
          fixPrec_of_le _ _ (numDigits_le_of_lt _ (lt_of_le_of_lt hle hr)) (by decide)
        have hquot : r / 10 ^ d = (r / 10 ^ tenVal r) * 10 ^ (tenVal r - d) := by
          have h2 : (r / 10 ^ tenVal r) * 10 ^ (tenVal r - d) * 10 ^ d = r := by
            rw [Nat.mul_assoc, ← pow_add]
            have h3 : tenVal r - d + d = tenVal r := by omega
            rw [h3, hdec]
          calc r / 10 ^ d
              = (r / 10 ^ tenVal r) * 10 ^ (tenVal r - d) * 10 ^ d / 10 ^ d := by rw [h2]
          _ = (r / 10 ^ tenVal r) * 10 ^ (tenVal r - d) :=
              Nat.mul_div_cancel _ (pow_pos (by omega) d)
        simp only [format_quantity, if_neg hr0, if_neg hd0, hq, hstrip, hminN, hminZ, hfix]
        simp only [exactDecimalString, if_neg hr0, Nat.min_eq_right hvd, hquot,
          Nat.sub_self, Nat.cast_zero, neg_zero]
        have hff : formatFixedList ((r / 10 ^ tenVal r) * 10 ^ (tenVal r - d)) 0 =
            natToStrList ((r / 10 ^ tenVal r) * 10 ^ (tenVal r - d)) := by
          simp [formatFixedList, zerosList]
        rw [hff, stripFormatted_of_no_dot _ (dot_not_mem_natToStrList _)]
      · -- a genuine fraction: the last digit is non-zero, stripping no-ops
        push_neg at hvd
        have hminN : tenVal r + (d + 30 - numDigits r - d) -
            min (tenVal r + (d + 30 - numDigits r - d)) (d + 30 - numDigits r) = 0 := by
          omega
        have hminZ : (min ((tenVal r + (d + 30 - numDigits r - d) : Nat) : Int)
            ((d + 30 - numDigits r : Nat) : Int)) -
            ((d + 30 - numDigits r : Nat) : Int) = -((d - tenVal r : Nat) : Int) := by
          omega
        have hle : r / 10 ^ tenVal r ≤ r := Nat.div_le_self r _
        have hfix : fixPrec (r / 10 ^ tenVal r) (-((d - tenVal r : Nat) : Int)) =
            (r / 10 ^ tenVal r, -((d - tenVal r : Nat) : Int)) :=
          fixPrec_of_le _ _ (numDigits_le_of_lt _ (lt_of_le_of_lt hle hr))
            (by simp only [DEC_ETINY]; omega)
        have he1 : 1 ≤ d - tenVal r := by omega
        have hsf : stripFormatted
            (formatFixedList (r / 10 ^ tenVal r) (-((d - tenVal r : Nat) : Int))) =
            formatFixedList (r / 10 ^ tenVal r) (-((d - tenVal r : Nat) : Int)) := by
          have hneg : ¬ (0 : Int) ≤ -((d - tenVal r : Nat) : Int) := by omega
          have hk : ((-(-((d - tenVal r : Nat) : Int))).toNat) = d - tenVal r := by
            rw [neg_neg, Int.toNat_natCast]
          simp only [formatFixedList, if_neg hneg, hk]
          obtain ⟨l, hl⟩ := natToStrList_last (r / 10 ^ tenVal r % 10 ^ (d - tenVal r))
          have hmod : r / 10 ^ tenVal r % 10 ^ (d - tenVal r) % 10 =
              r / 10 ^ tenVal r % 10 :=
            Nat.mod_mod_of_dvd _ (dvd_pow_self 10 (by omega))
          rw [hmod] at hl
          rw [hl]
          have hre : natToStrList (r / 10 ^ tenVal r / 10 ^ (d - tenVal r)) ++
              '.' :: (zerosList ((d - tenVal r) -
                numDigits (r / 10 ^ tenVal r % 10 ^ (d - tenVal r))) ++
                (l ++ [digitChar (r / 10 ^ tenVal r % 10)])) =
              (natToStrList (r / 10 ^ tenVal r / 10 ^ (d - tenVal r)) ++
              '.' :: (zerosList ((d - tenVal r) -
                numDigits (r / 10 ^ tenVal r % 10 ^ (d - tenVal r))) ++ l)) ++
                [digitChar (r / 10 ^ tenVal r % 10)] := by
            simp [List.append_assoc]
          rw [hre]
          exact stripFormatted_last_digit _ _ (Nat.mod_lt _ (by omega)) hm10
            (List.mem_append_right _ (List.mem_cons_self _ _))
        simp only [format_quantity, if_neg hr0, if_neg hd0, hq, hstrip, hminN, hminZ,
          pow_zero, Nat.mul_one, hfix]
        simp only [exactDecimalString, if_neg hr0, Nat.min_eq_left (Nat.le_of_lt hvd)]
        exact congrArg String.mk hsf

/-- Leading copies of the stripped character fall away in one step. -/
theorem dropWhile_beq_replicate (c : Char) : ∀ (n : Nat) (l : List Char),
    List.dropWhile (fun x => x == c) (List.replicate n c ++ l) =
      List.dropWhile (fun x => x == c) l := by
  intro n
  induction n with
  | zero => intro l; rfl
  | succ k ih =>
    intro l
    rw [List.replicate_succ, List.cons_append, List.dropWhile_cons_of_pos (by simp)]
    exact ih l

/-- CLAIM C3 (amended).  `format_quantity(r, d)` equals the exact decimal
rendering of `r / 10 ^ d` (trailing zeros and a lone point stripped) for
every `r < 10 ^ 28` — within the 28-significant-digit default precision of
Python's `Decimal` context — and every `d ≤ 1000026` — within the default
context's exponent floor `Etiny = -1000026`; `format_quantity(0, d) = "0"`
for every `d`; `format_quantity(r, 0)` is the plain decimal string of `r`
for every `r`; the 18-fractional-digit example renders in full
precision. -/
theorem format_quantity_exact_rendering :
    (∀ r d : Nat, r < 10 ^ 28 → d ≤ 1000026 →
      format_quantity r d = exactDecimalString r d)
    ∧ (∀ d : Nat, format_quantity 0 d = "0")
    ∧ (∀ r : Nat, format_quantity r 0 = natToStr r)
    ∧ format_quantity 1234567890123456789 18 = "1.234567890123456789" := by
  refine ⟨format_quantity_eq_exact, fun d => rfl, ?_, by decide⟩
  intro r
  by_cases h : r = 0
  · subst h; rfl
  · simp [format_quantity, h]

/-- Witness for the amended C3 at the spec's own 18-digit example. -/
theorem format_quantity_exact_rendering_witness :
    (1234567890123456789 : Nat) < 10 ^ 28 ∧ (18 : Nat) ≤ 1000026
    ∧ format_quantity 1234567890123456789 18 = exactDecimalString 1234567890123456789 18 :=
  ⟨by decide, by decide,
    format_quantity_exact_rendering.1 1234567890123456789 18 (by decide) (by decide)⟩

/-- CLAIM C3 (counterexample).  The exact rendering fails in two ways.
Beyond 28 significant digits the `Decimal` default context rounds: at
`r = 10^28 + 1`, `d = 1` the code yields `10^27` exactly (the trailing
".1" is rounded away).  And past the default context's exponent floor
(`Etiny = -1000026`) the quotient underflows: at `r = 1`, `d = 1000027`
the real program — and this model of it — returns `"0"` although the
rational is not zero.  So "no precision loss for any magnitude" is
false. -/
theorem format_quantity_precision_loss :
    format_quantity (10 ^ 28 + 1) 1 = "1000000000000000000000000000"
    ∧ exactDecimalString (10 ^ 28 + 1) 1 = "1000000000000000000000000000.1"
    ∧ format_quantity (10 ^ 28 + 1) 1 ≠ exactDecimalString (10 ^ 28 + 1) 1
    ∧ format_quantity 1 1000027 = "0"
    ∧ exactDecimalString 1 1000027 ≠ "0" := by
  have hA : decimalDivRaw 1 1000027 = (1, -1000027) := by
    have h := decimalDivRaw_exact 1 1000027 (by decide) (by decide)
    have h1 : (1 : Nat) / 10 ^ tenVal 1 = 1 := by decide
    have h2 : tenVal 1 + (1000027 + 30 - numDigits 1 - 1000027) = 29 := by decide
    have h3 : (1000027 + 30 - numDigits 1 : Nat) = 1000056 := by decide
    rw [h1, h2, h3] at h
    rw [h]
    unfold stripZeros
    have h4 : ((-(-((1000056 : Nat) : Int))).toNat) = 1000056 := by decide
    rw [h4]
    have h5 := stripZerosAux_spec 1000056 1000056 29 1 (by decide) (by decide)
    rw [h5]
    decide
  have hB : fixPrec 1 (-1000027) = (0, -1000026) := by decide
  have hC : formatFixedList 0 (-1000026) = '0' :: '.' :: List.replicate 1000026 '0' := by
    unfold formatFixedList
    rw [if_neg (by decide : ¬ (0 : Int) ≤ -1000026)]
    rw [show ((-(-1000026 : Int)).toNat) = 1000026 from by decide]
    show natToStrList (0 / 10 ^ 1000026) ++
      '.' :: (zerosList (1000026 - numDigits (0 % 10 ^ 1000026)) ++
        natToStrList (0 % 10 ^ 1000026)) = _
    rw [Nat.zero_div, Nat.zero_mod]
    rw [show natToStrList 0 = ['0'] from by decide]
    rw [show numDigits 0 = 1 from by decide]
    rw [show (1000026 - 1 : Nat) = 1000025 from by decide]
    show ['0'] ++ '.' :: (List.replicate 1000025 '0' ++ ['0']) = _
    rw [← List.replicate_succ']
    rfl
  have hrev1 : ('0' :: '.' :: List.replicate 1000026 '0').reverse =
      List.replicate 1000026 '0' ++ ['.', '0'] := by
    rw [List.reverse_cons, List.reverse_cons, List.reverse_replicate, List.append_assoc]
    rfl
  have hstep1 : pyRstripChar '0' ('0' :: '.' :: List.replicate 1000026 '0') = ['0', '.'] := by
    unfold pyRstripChar
    rw [hrev1, dropWhile_beq_replicate]
    decide
  have hcont : ('0' :: '.' :: List.replicate 1000026 '0').contains '.' = true :=
    List.contains_iff_exists_mem_beq.mpr
      ⟨'.', List.mem_cons_of_mem _ (List.mem_cons_self _ _), by decide⟩
  have hD : stripFormatted ('0' :: '.' :: List.replicate 1000026 '0') = ['0'] := by
    unfold stripFormatted
    rw [hcont, if_pos rfl, hstep1]
    decide
  have hmain : format_quantity 1 1000027 = "0" := by
    unfold format_quantity
    rw [if_neg (by decide : ¬ (1 : Nat) = 0), if_neg (by decide : ¬ (1000027 : Nat) = 0)]
    rw [hA]
    show (⟨stripFormatted (formatFixedList (fixPrec 1 (-1000027)).1
      (fixPrec 1 (-1000027)).2)⟩ : String) = "0"
    rw [hB]
    show (⟨stripFormatted (formatFixedList 0 (-1000026))⟩ : String) = "0"
    rw [hC, hD]
  have hlist : formatFixedList 1 (-((1000027 : Nat) : Int)) =
      '0' :: '.' :: (zerosList 1000026 ++ ['1']) := by
    unfold formatFixedList
    rw [if_neg (by decide : ¬ (0 : Int) ≤ -((1000027 : Nat) : Int))]
    rw [show ((-(-((1000027 : Nat) : Int))).toNat) = 1000027 from by decide]
    show natToStrList (1 / 10 ^ 1000027) ++
      '.' :: (zerosList (1000027 - numDigits (1 % 10 ^ 1000027)) ++
        natToStrList (1 % 10 ^ 1000027)) = _
    have hlt : (1 : Nat) < 10 ^ 1000027 := Nat.one_lt_pow (by decide) (by decide)
    rw [Nat.mod_eq_of_lt hlt, Nat.div_eq_of_lt hlt]
    rw [show natToStrList 0 = ['0'] from by decide]
    rw [show natToStrList 1 = ['1'] from by decide]
    rw [show numDigits 1 = 1 from by decide]
    rw [show (1000027 - 1 : Nat) = 1000026 from by decide]
    rfl
  have hexact : exactDecimalString 1 1000027 =
      ⟨'0' :: '.' :: (zerosList 1000026 ++ ['1'])⟩ := by
    unfold exactDecimalString
    rw [if_neg (by decide : ¬ (1 : Nat) = 0)]
    show (⟨formatFixedList ((1 : Nat) / 10 ^ min (tenVal 1) 1000027)
      (-((1000027 - min (tenVal 1) 1000027 : Nat) : Int))⟩ : String) = _
    rw [show min (tenVal 1) 1000027 = 0 from by decide]
    rw [show (1 : Nat) / 10 ^ 0 = 1 from by decide]
    rw [show (1000027 - 0 : Nat) = 1000027 from by decide]
    exact congrArg String.mk hlist
  refine ⟨by decide, by decide, by decide, hmain, ?_⟩
  rw [hexact]
  intro hcontra
  have hlists : '0' :: '.' :: (zerosList 1000026 ++ ['1']) = ['0'] :=
    congrArg String.toList hcontra
  injection hlists with h1 h2
  exact List.noConfusion h2

end WalletScan
